import Mathlib

/-!
Verification development for the context-aware-suggestions classifier.

The program classifies a cursor offset in a source buffer as "inside plain
markup text content" or not.  Three classifiers exist in the source:

* `isInJsxTextContent` (extension.ts): a single-pass heuristic character
  state machine over JS/TS text that may embed JSX;
* `isJsxTextContext` (contextDetector.ts): a syntax-tree walk over the
  parse tree produced by the external TypeScript compiler;
* `isMarkupTextContext` (contextDetector.ts): an index-based scanner for
  pure markup (HTML/XML/SVG/XHTML) buffers;

plus a TTL-keyed result cache in class `JsxContextDetector`.

Text is modelled as `List Char`; JavaScript character indexing
(`text[i]`, which yields `undefined` out of range) is modelled by
`charAt` with a NUL sentinel: every comparison performed by the source
compares a character against one of a fixed set of printable delimiter
characters, for which the NUL sentinel and JS `undefined`/`''` behave
identically.  JS numbers holding counters are modelled as `Int` (they
are not clamped by the language), and string search primitives
(`indexOf`, `lastIndexOf` with their `fromIndex` clamping rules) are
modelled explicitly below.
-/

/-- NUL sentinel standing for JavaScript `undefined` / `''` in character
position reads outside the buffer. -/
def nul : Char := Char.ofNat 0

/-- Backtick character (template-literal delimiter). -/
def bq : Char := Char.ofNat 96

/-- Single-quote character (string delimiter). -/
def sqc : Char := Char.ofNat 39

/-- Character at index `i` of the buffer, NUL when out of range
(JS `text[i]`). -/
def charAt (t : List Char) (i : Nat) : Char := t.getD i nul

/-- Substring match: the characters of `pat` occur in `t` starting at
position `p`.  Out-of-range reads yield the NUL sentinel, which never
equals a character of the patterns used by the source, so a match that
would overrun the buffer is `false`, as in JS. -/
def sliceEq (t : List Char) (p : Nat) (pat : List Char) : Bool :=
  (List.range pat.length).all fun k => charAt t (p + k) == pat.getD k nul

/-- JS `\s` whitespace class, restricted to the ASCII range plus NBSP
(the exotic Unicode members are irrelevant to the analysed buffers). -/
def isJsSpace (c : Char) : Bool :=
  c == ' ' || c == '\t' || c == '\n' || c == '\r' ||
  c == Char.ofNat 11 || c == Char.ofNat 12 || c == Char.ofNat 160

/-- Regex class `[A-Za-z0-9_.\-]` used to scan back over tag names. -/
def isTagNameChar (c : Char) : Bool :=
  c.isAlpha || c.isDigit || c == '_' || c == '.' || c == '-'

/-- Regex class `[A-Za-z0-9_)\]]` of characters that make a preceding
`<` look like a comparison. -/
def isIdentCloseChar (c : Char) : Bool :=
  c.isAlpha || c.isDigit || c == '_' || c == ')' || c == ']'

/-- Regex `\w` class, used for the `\b` boundary of the keyword regex. -/
def isWordChar (c : Char) : Bool := c.isAlpha || c.isDigit || c == '_'

/-- Backward scan: starting at index `j` and walking down, skip characters
satisfying `p`; `some k` is the first index whose character fails `p`,
`none` means the scan ran past index 0 (JS `j = -1`). -/
def skipBack (p : Char → Bool) (t : List Char) : Nat → Option Nat
  | 0 => if p (charAt t 0) then none else some 0
  | j + 1 => if p (charAt t (j + 1)) then skipBack p t j else some (j + 1)

/-- Backward search: greatest index `i ≤ k` with `f i = true`, `-1` if
none (core of JS `String.lastIndexOf`). -/
def lastHitAux (f : Nat → Bool) : Nat → Int
  | 0 => if f 0 then 0 else -1
  | k + 1 => if f (k + 1) then ((k + 1 : Nat) : Int) else lastHitAux f k

/-- Forward search with fuel: least index `i ≥ start`, `i < start + fuel`,
with `f i = true` (core of JS `String.indexOf`). -/
def firstHit (f : Nat → Bool) : Nat → Nat → Option Nat
  | 0, _ => none
  | fuel + 1, p => if f p then some p else firstHit f fuel (p + 1)

/-- JS `text.lastIndexOf(c, fromIdx)` for a single character: `fromIdx`
is clamped below at 0 and above at `length - 1`; result is the greatest
matching index not above the clamp, `-1` if none. -/
def lastIndexOfC (t : List Char) (c : Char) (fromIdx : Int) : Int :=
  if t.length = 0 then -1
  else lastHitAux (fun p => charAt t p == c) (min (max fromIdx 0) ((t.length : Int) - 1)).toNat

/-- JS `text.lastIndexOf(pat, fromIdx)` for a multi-character pattern
with a non-negative `fromIdx`: greatest match start `p ≤ min fromIdx len`
(a match overrunning the buffer fails through the NUL sentinel). -/
def lastIndexOfSeq (t : List Char) (pat : List Char) (fromIdx : Nat) : Int :=
  lastHitAux (fun p => sliceEq t p pat) (min fromIdx t.length)

/-- JS `text.indexOf(c, start)` for a single character and non-negative
`start`. -/
def indexOfC (t : List Char) (c : Char) (start : Nat) : Int :=
  match firstHit (fun p => decide (p < t.length) && (charAt t p == c)) (t.length + 1) start with
  | some p => (p : Int)
  | none => -1

/-- JS `text.indexOf(pat, start)` for a multi-character pattern and
non-negative `start`. -/
def indexOfSeq (t : List Char) (pat : List Char) (start : Nat) : Int :=
  match firstHit (fun p => sliceEq t p pat) (t.length + 1) start with
  | some p => (p : Int)
  | none => -1

/-!  ## Heuristic code scanner (extension.ts, `isInJsxTextContent`)  -/

/-- Scan State of the heuristic scanner: one field per local variable of
`isInJsxTextContent`.  Counters are `Int` because JS numbers are not
clamped by the language. -/
structure ScanState where
  inString : Bool
  stringChar : Char
  inTemplate : Bool
  templateDepth : Int
  braceDepth : Int
  jsxBraceDepth : Int
  jsxTagDepth : Int
  inJsxTag : Bool
  lastJsxTagClose : Int
  inJsxContent : Bool

/-- Initial Scan State (all flags false, all counters zero,
`lastJsxTagClose = -1`). -/
def initScan : ScanState :=
  ⟨false, nul, false, 0, 0, 0, 0, false, -1, false⟩

/-- The keyword-exception regex
`/\b(return|=>|=|\(|,|:|\?|&&|\|\||!)\s*$/` applied to
`text.substring(max(0, j - 10), j + 1)`.  The tested string ends in a
character of class `[A-Za-z0-9_)\]]` (that is why the regex runs), which
is neither whitespace nor the last character of any symbolic
alternative, so the regex matches exactly when the substring ends with
the word `return`: positions `j-5 .. j` hold `return` and the `\b`
before its `r` holds (`j = 5`, i.e. buffer start, or a non-word
character at `j - 6`). -/
def endsWithReturn (t : List Char) (j : Nat) : Bool :=
  decide (5 ≤ j) && sliceEq t (j - 5) ['r', 'e', 't', 'u', 'r', 'n'] &&
    (decide (j = 5) || !isWordChar (charAt t (j - 6)))

/-- extension.ts `isLikelyTagStart(text, i)`: is the `<` at index `i` a
tag start rather than a comparison or generic bracket? -/
def isLikelyTagStart (t : List Char) (i : Nat) : Bool :=
  if t.length ≤ i + 1 then false
  else
    let nextChar := charAt t (i + 1)
    if !(nextChar.isAlpha || nextChar == '/' || nextChar == '>') then false
    else if i = 0 then true
    else
      match skipBack isJsSpace t (i - 1) with
      | none => true
      | some j =>
        let prevChar := charAt t j
        if prevChar == '|' || prevChar == '&' then true
        else if isIdentCloseChar prevChar then endsWithReturn t j
        else true

/-- extension.ts lines 352–372: a `>` ended a tag that was not
self-closing; scan back over the tag name to decide whether the tag was
a closing tag `</name>` (depth decreases, clamped at 0, exiting content
at 0) or an opening tag `<name ...>` (depth increases, content entered). -/
def closingCheck (t : List Char) (i : Nat) (s : ScanState) : ScanState :=
  let j1 : Option Nat := if i = 0 then none else skipBack isTagNameChar t (i - 1)
  let j2 : Option Nat :=
    match j1 with
    | none => none
    | some j => skipBack isJsSpace t j
  match j2 with
  | some j =>
    if charAt t j == '/' && decide (0 < j) && charAt t (j - 1) == '<' then
      let d := s.jsxTagDepth - 1
      if d ≤ 0 then { s with jsxTagDepth := 0, inJsxContent := false }
      else { s with jsxTagDepth := d }
    else
      { s with jsxTagDepth := s.jsxTagDepth + 1, inJsxContent := true }
  | none =>
    { s with jsxTagDepth := s.jsxTagDepth + 1, inJsxContent := true }

/-- Source sections "Handle escape sequences" and "Handle strings":
`some` means the iteration ended here (a `continue` in the source). -/
def stringStep (char prevChar : Char) (s : ScanState) : Option ScanState :=
  if (s.inString || s.inTemplate) && prevChar == '\\' then some s
  else if !s.inTemplate && !s.inString && (char == '"' || char == sqc) then
    some { s with inString := true, stringChar := char }
  else if s.inString && char == s.stringChar then some { s with inString := false }
  else if s.inString then some s
  else none

/-- Source section "Handle template literals": `some` means the
iteration ended here. -/
def templateStep (char nextChar : Char) (s : ScanState) : Option ScanState :=
  if !s.inTemplate && char == bq then
    some { s with inTemplate := true, templateDepth := 1 }
  else if s.inTemplate then
    some
      (if char == bq then { s with inTemplate := false, templateDepth := 0 }
       else if char == '$' && nextChar == '{' then
         { s with templateDepth := s.templateDepth + 1 }
       else if char == '}' && 1 < s.templateDepth then
         { s with templateDepth := s.templateDepth - 1 }
       else s)
  else none

/-- Source sections "Track braces in JS context" and "Track JSX
expression braces": both `if` statements run in sequence. -/
def braceTrack (char : Char) (s : ScanState) : ScanState :=
  let s1 :=
    if !s.inJsxContent && !s.inJsxTag then
      if char == '{' then { s with braceDepth := s.braceDepth + 1 }
      else if char == '}' then { s with braceDepth := s.braceDepth - 1 }
      else s
    else s
  if s1.inJsxContent && !s1.inJsxTag then
    if char == '{' then { s1 with jsxBraceDepth := s1.jsxBraceDepth + 1 }
    else if char == '}' && 0 < s1.jsxBraceDepth then
      { s1 with jsxBraceDepth := s1.jsxBraceDepth - 1 }
    else s1
  else s1

/-- Source sections "Handle < - potential tag start", "Handle > -
potential tag end" and "Handle fragment closing </>"; the second
component is the number of positions consumed (1 normally, 2 for a
fragment open `<>`, 3 for a fragment close `</>`, matching the in-body
`i++` / `i += 2`). -/
def tagStep (t : List Char) (i : Nat) (char prevChar nextChar : Char)
    (s : ScanState) : ScanState × Nat :=
  if char == '<' && isLikelyTagStart t i then
    if nextChar == '/' then ({ s with inJsxTag := true }, 1)
    else if nextChar == '>' then
      ({ s with jsxTagDepth := s.jsxTagDepth + 1, inJsxContent := true,
                lastJsxTagClose := ((i + 1 : Nat) : Int) }, 2)
    else ({ s with inJsxTag := true }, 1)
  else if char == '>' && s.inJsxTag then
    let s3 := { s with inJsxTag := false, lastJsxTagClose := (i : Int) }
    if prevChar == '/' then
      (if s3.jsxTagDepth = 0 then { s3 with inJsxContent := false } else s3, 1)
    else
      (closingCheck t i s3, 1)
  else if char == '<' && nextChar == '/' && charAt t (i + 2) == '>' then
    let d := s.jsxTagDepth - 1
    let s3 :=
      if d ≤ 0 then { s with jsxTagDepth := 0, inJsxContent := false }
      else { s with jsxTagDepth := d }
    ({ s3 with lastJsxTagClose := ((i + 2 : Nat) : Int) }, 3)
  else (s, 1)

/-- One iteration of the `for` loop of `isInJsxTextContent` at position
`i`, composed of the source's sections in their order: strings and
templates first (their `continue`s short-circuit), then brace tracking,
then the "Don't process < > inside JSX expressions" skip, then the tag
handling. -/
def jsxStep (t : List Char) (i : Nat) (s : ScanState) : ScanState × Nat :=
  let char := charAt t i
  let prevChar := if 0 < i then charAt t (i - 1) else nul
  let nextChar := charAt t (i + 1)
  match stringStep char prevChar s with
  | some s' => (s', 1)
  | none =>
    match templateStep char nextChar s with
    | some s' => (s', 1)
    | none =>
      let s2 := braceTrack char s
      if 0 < s2.jsxBraceDepth then (s2, 1)
      else tagStep t i char prevChar nextChar s2

/-- Fold step over buffer positions: a pending-skip counter realises the
source's in-body `i++` jumps (a consumed position is not processed). -/
def scanPos (t : List Char) (st : ScanState × Nat) (i : Nat) : ScanState × Nat :=
  match st.2 with
  | k + 1 => (st.1, k)
  | 0 =>
    let r := jsxStep t i st.1
    (r.1, r.2 - 1)

/-- Scan State after running the loop of `isInJsxTextContent` over
positions `0 .. offset-1`. -/
def scanAcc (t : List Char) (offset : Nat) : ScanState × Nat :=
  (List.range offset).foldl (scanPos t) (initScan, 0)

/-- extension.ts `isInJsxTextContent(text, offset)`: single forward pass,
then the verdict is read off the final Scan State. -/
def isInJsxTextContent (t : List Char) (offset : Nat) : Bool :=
  let s := (scanAcc t offset).1
  s.inJsxContent && s.jsxBraceDepth == 0 && !s.inJsxTag

/-!  ## Markup scanner (contextDetector.ts, `isMarkupTextContext`)  -/

/-- Pattern `<!--`. -/
def comPat : List Char := ['<', '!', '-', '-']

/-- Pattern `-->`. -/
def endPat : List Char := ['-', '-', '>']

/-- contextDetector.ts `isMarkupTextContext`, "Skip HTML comments"
block: the last `<!--` at or before the offset starts after the last
tag close and is not terminated by a `-->` strictly before the offset. -/
def markupCommentBad (t : List Char) (offset lastGt : Int) : Bool :=
  let commentStart := lastIndexOfSeq t comPat offset.toNat
  if commentStart != -1 && lastGt < commentStart then
    let commentEnd := indexOfSeq t endPat commentStart.toNat
    commentEnd == -1 || decide (offset ≤ commentEnd)
  else false

/-- contextDetector.ts `isMarkupTextContext(probe)`: index-based
classification for pure markup buffers.  `offset` is `Int` because the
source range-checks `offset < 0`. -/
def isMarkupTextContext (t : List Char) (offset : Int) : Bool :=
  if offset < 0 ∨ (t.length : Int) < offset then false
  else
    let o := offset.toNat
    let lastGt := lastIndexOfC t '>' (offset - 1)
    let lastLt := lastIndexOfC t '<' (offset - 1)
    if lastGt < lastLt then false
    else
      let nextLt0 := indexOfC t '<' o
      if lastGt = -1 then false
      else if markupCommentBad t offset lastGt then false
      else
        let nextLt := if nextLt0 = -1 then (t.length : Int) else nextLt0
        decide (lastGt < offset ∧ offset ≤ nextLt)

/-- contextDetector.ts `isInsideTagAttributes(text, offset)`: text-based
fallback of the attribute-area walk. -/
def isInsideTagAttributes (t : List Char) (offset : Nat) : Bool :=
  let lastLt := lastIndexOfC t '<' (offset : Int)
  let lastGt := lastIndexOfC t '>' (offset : Int)
  if lastLt = -1 then false
  else if lastGt != -1 && lastLt < lastGt then false
  else
    let nextGt := indexOfC t '>' offset
    if nextGt = -1 then false
    else if charAt t (lastLt.toNat + 1) == '/' then false
    else decide (lastLt < (offset : Int) ∧ (offset : Int) < nextGt)

/-!  ## Syntax-tree classifier (contextDetector.ts, `isJsxTextContext`)

The source parses the buffer with the external TypeScript compiler
(`ts.createSourceFile`) and then classifies by walking the resulting
tree.  The walk functions below are translated from the source; the
parser itself is not part of this repository, so parse trees are
supplied as explicit values, modelled from the spec (section 4.3 and the
Syntax Node Tree data model) for each analysed input shape. -/

/-- Node kinds of interest to the classifier (spec section 3: element,
fragment, opening/closing/self-closing tag, attribute list, text node,
embedded expression); every other TypeScript node kind is `other`. -/
inductive NKind where
  | jsxElement
  | jsxFragment
  | jsxSelfClosingElement
  | jsxOpeningElement
  | jsxClosingElement
  | jsxOpeningFragment
  | jsxClosingFragment
  | jsxText
  | jsxExpression
  | jsxAttributes
  | other
deriving DecidableEq

/-- Syntax node: kind, `getFullStart()`, `getStart()`, `getEnd()` and
children in source order (as returned by `getChildren()`; syntax-list
wrapper nodes, which have kind `other` and never influence the walks,
are flattened away). -/
inductive TsNode where
  | node (kind : NKind) (fullStart startPos endPos : Nat) (children : List TsNode)

def TsNode.kind : TsNode → NKind
  | .node k _ _ _ _ => k

def TsNode.fullStart : TsNode → Nat
  | .node _ fs _ _ _ => fs

def TsNode.startPos : TsNode → Nat
  | .node _ _ st _ _ => st

def TsNode.endPos : TsNode → Nat
  | .node _ _ _ en _ => en

def TsNode.children : TsNode → List TsNode
  | .node _ _ _ _ cs => cs

/-- Is the node kind one of the JSX kinds tested by `containsJsx`? -/
def isJsxKind (k : NKind) : Bool :=
  match k with
  | .jsxElement | .jsxFragment | .jsxSelfClosingElement | .jsxOpeningElement
  | .jsxClosingElement | .jsxOpeningFragment | .jsxClosingFragment => true
  | _ => false

/-- Recursion fuel used for the tree recursions; every parse tree in
this development has depth below this bound, and well below the depth of
any TypeScript parse of the analysed inputs. -/
def treeFuel : Nat := 12

/-- contextDetector.ts `containsJsx(sourceFile)`: does any node of the
tree have a JSX kind?  (The source's visitor stops descending once one
is found; the result is the same existence check.)  Fuel-bounded
structural recursion. -/
def containsJsxF : Nat → TsNode → Bool
  | 0, _ => false
  | fuel + 1, n => isJsxKind n.kind || n.children.any (containsJsxF fuel)

/-- contextDetector.ts `findDeepestNode(node, offset)`, returning the
whole ancestor chain (deepest node first, root last) instead of the
deepest node alone: the source walks `node.parent` upward, and the chain
is exactly that walk.  The span test `offset < getFullStart() ||
offset >= getEnd()` and the first-matching-child order follow the
source. -/
def findDeepestChainF : Nat → Nat → TsNode → Option (List TsNode)
  | 0, _, _ => none
  | fuel + 1, offset, n =>
    if offset < n.fullStart ∨ n.endPos ≤ offset then none
    else
      match n.children.findSome? (fun c => findDeepestChainF fuel offset c) with
      | some chain => some (chain ++ [n])
      | none => some [n]

/-- One ancestor test of contextDetector.ts `isInsideJsxGap(node,
offset)`: the node is an element (fragment) with
`openingElement.getEnd() ≤ offset ≤ closingElement.getStart()`.  In the
TypeScript tree the opening element (fragment) is the first child and
the closing one the last child. -/
def gapNodeHit (n : TsNode) (offset : Nat) : Bool :=
  match n.kind with
  | .jsxElement | .jsxFragment =>
    match n.children.head?, n.children.getLast? with
    | some op, some cl => decide (op.endPos ≤ offset ∧ offset ≤ cl.startPos)
    | _, _ => false
  | _ => false

/-- contextDetector.ts `isInsideJsxGap(node, offset)` over the ancestor
chain: some ancestor passes the gap test. -/
def isInsideJsxGapChain (chain : List TsNode) (offset : Nat) : Bool :=
  chain.any fun n => gapNodeHit n offset

/-- contextDetector.ts free function `isInsideJsxText(node, offset)`
over the ancestor chain: a JSX text ancestor yields true; an
opening/self-closing/closing tag or fragment delimiter ancestor strictly
containing the offset yields false; otherwise continue upward. -/
def isInsideJsxTextChain (chain : List TsNode) (offset : Nat) : Bool :=
  match chain with
  | [] => false
  | n :: rest =>
    if n.kind = .jsxText then true
    else if (n.kind = .jsxOpeningElement ∨ n.kind = .jsxSelfClosingElement ∨
             n.kind = .jsxOpeningFragment) ∧ n.startPos < offset ∧ offset < n.endPos then
      false
    else if (n.kind = .jsxClosingElement ∨ n.kind = .jsxClosingFragment) ∧
            n.startPos < offset ∧ offset < n.endPos then
      false
    else isInsideJsxTextChain rest offset

/-- contextDetector.ts `isInsideJsxExpressionContext(node, offset)` over
the ancestor chain: some JSX-expression ancestor strictly contains the
offset. -/
def isInsideJsxExprChain (chain : List TsNode) (offset : Nat) : Bool :=
  chain.any fun n =>
    n.kind == .jsxExpression && decide (n.startPos < offset ∧ offset < n.endPos)

/-- contextDetector.ts `isInsideJsxAttributeArea(node, offset)` over the
ancestor chain: an opening/self-closing ancestor whose attribute list
span (`[attributes.getFullStart(), attributes.end]`) contains the
offset, or whose tag-name region (strictly between `getStart()` and
`attributes.getFullStart()`) contains it, yields true; if no ancestor
decides, the source falls back to the text scan
`isInsideTagAttributes(fullText, offset)`. -/
def isInsideJsxAttrChain (t : List Char) (chain : List TsNode) (offset : Nat) : Bool :=
  match chain with
  | [] => isInsideTagAttributes t offset
  | n :: rest =>
    if n.kind = .jsxOpeningElement ∨ n.kind = .jsxSelfClosingElement then
      match n.children.find? (fun c => c.kind == .jsxAttributes) with
      | some attrs =>
        if attrs.fullStart ≤ offset ∧ offset ≤ attrs.endPos then true
        else if n.startPos < offset ∧ offset < attrs.fullStart then true
        else isInsideJsxAttrChain t rest offset
      | none => isInsideJsxAttrChain t rest offset
    else isInsideJsxAttrChain t rest offset

/-- contextDetector.ts `isJsxTextContext(probe)` after the markup
dispatch and the offset range check (lines 122-145): tree-based
classification of a code-dialect buffer.  The parse tree `tree` stands
for `ts.createSourceFile(...)` on `t`. -/
def classifyTreeCore (t : List Char) (tree : TsNode) (o : Nat) : Bool :=
  if !containsJsxF treeFuel tree then false
  else
    match findDeepestChainF treeFuel o tree with
    | none => false
    | some chain =>
      if isInsideJsxAttrChain t chain o then false
      else if isInsideJsxExprChain chain o then false
      else if isInsideJsxTextChain chain o then true
      else isInsideJsxGapChain chain o

/-- Markup-dialect language identifiers (contextDetector.ts
`MARKUP_LANGUAGES`). -/
def MARKUP_LANGUAGES : List String := ["html", "xml", "xhtml", "svg"]

/-- Code-dialect language identifiers (contextDetector.ts
`JSX_LANGUAGES`). -/
def JSX_LANGUAGES : List String :=
  ["javascriptreact", "typescriptreact", "javascript", "typescript"]

/-- contextDetector.ts `isJsxTextContext(probe)`: dispatch markup
dialects to the markup scanner, range-check the offset, then classify
through the parse tree of the buffer (supplied as `tree`). -/
def isJsxTextContext (languageId : String) (t : List Char) (tree : TsNode)
    (offset : Int) : Bool :=
  if MARKUP_LANGUAGES.contains languageId then isMarkupTextContext t offset
  else if offset < 0 ∨ (t.length : Int) < offset then false
  else classifyTreeCore t tree offset.toNat

/-!  ## Result cache (contextDetector.ts, class `JsxContextDetector`)  -/

/-- Editor position (vscode.Position): line and character;
`Position.isEqual` compares both. -/
structure EdPos where
  line : Nat
  character : Nat
deriving DecidableEq

/-- The document data the detector reads: language id, uri (as string),
version counter. -/
structure EdDoc where
  languageId : String
  uri : String
  version : Nat

/-- Cache slot of `JsxContextDetector`. -/
structure CacheEntry where
  uri : String
  version : Nat
  position : EdPos
  timestamp : Int
  result : Bool

/-- contextDetector.ts `isCacheValid(document, position)` at time `now`
for a detector constructed with `ttl` (already clamped non-negative by
the constructor). -/
def isCacheValid (ttl : Nat) (cache : Option CacheEntry) (doc : EdDoc)
    (pos : EdPos) (now : Int) : Bool :=
  match cache with
  | none => false
  | some c =>
    if c.uri ≠ doc.uri then false
    else if c.version ≠ doc.version then false
    else if c.position ≠ pos then false
    else if ttl = 0 then false
    else decide (now - c.timestamp < (ttl : Int))

/-- contextDetector.ts `JsxContextDetector.isInsideJsxText(document,
position)` as a state transformer on the cache slot.  `computeJsx` and
`computeMarkup` abstract the calls `isJsxTextContext(probe)` and
`isMarkupTextContext(probe)` (probe construction from the live document
and `offsetAt` are host-editor glue, out of scope per the spec); the
returned pair is (verdict, new cache slot). -/
def detectorIsInsideJsxText (ttl : Nat) (computeJsx computeMarkup : EdDoc → EdPos → Bool)
    (cache : Option CacheEntry) (doc : EdDoc) (pos : EdPos) (now : Int) :
    Bool × Option CacheEntry :=
  if !(JSX_LANGUAGES.contains doc.languageId || MARKUP_LANGUAGES.contains doc.languageId) then
    (false, cache)
  else if MARKUP_LANGUAGES.contains doc.languageId then
    (computeMarkup doc pos, cache)
  else if isCacheValid ttl cache doc pos now then
    (match cache with
     | some c => c.result
     | none => false, cache)
  else
    let r := computeJsx doc pos
    (r, some ⟨doc.uri, doc.version, pos, now, r⟩)

/-!  ## Modelled parse trees

The TypeScript parser is an external dependency, not part of this
repository, so its output for each analysed input shape is modelled from
the spec (section 3 "Syntax Node Tree" and section 4.3): elements carry
an opening tag (with `<`, name, attribute list and `>` children), their
children, and a closing tag; fragments likewise; an embedded expression
spans its braces.  Spans follow the TypeScript convention:
`getFullStart()` includes leading trivia, `getStart()` does not, and
`getEnd()` is exclusive. -/

/-- Buffer `<T>C</T>` for a tag name `T` and content `C`. -/
def elementText (T C : List Char) : List Char :=
  '<' :: (T ++ '>' :: (C ++ '<' :: '/' :: (T ++ ['>'])))

/-- Buffer `<>X</>` for fragment content `X`. -/
def fragText (X : List Char) : List Char :=
  '<' :: '>' :: (X ++ ['<', '/', '>'])

/-- Buffer `<T>{E}</T>`: an element whose only child is the embedded
expression `{E}`. -/
def exprText (T E : List Char) : List Char :=
  '<' :: (T ++ '>' :: '{' :: (E ++ '}' :: '<' :: '/' :: (T ++ ['>'])))

/-- Modelled from the spec: the opening tag `<T` + `>` of an element
with tag-name length `tl` and no attributes: `<` token, tag-name
identifier, empty attribute list, `>` token. -/
def elemOpening (tl : Nat) : TsNode :=
  .node .jsxOpeningElement 0 0 (tl + 2) [
    .node .other 0 0 1 [],
    .node .other 1 1 (tl + 1) [],
    .node .jsxAttributes (tl + 1) (tl + 1) (tl + 1) [],
    .node .other (tl + 1) (tl + 1) (tl + 2) []]

/-- Modelled from the spec: the JSX text node of `<T>C</T>`. -/
def elemTextNode (tl cl : Nat) : TsNode :=
  .node .jsxText (tl + 2) (tl + 2) (tl + 2 + cl) []

/-- Modelled from the spec: the closing tag `</T>` of `<T>C</T>`:
`</` token, tag-name identifier, `>` token. -/
def elemClosing (tl cl : Nat) : TsNode :=
  .node .jsxClosingElement (tl + 2 + cl) (tl + 2 + cl) (2 * tl + cl + 5) [
    .node .other (tl + 2 + cl) (tl + 2 + cl) (tl + 4 + cl) [],
    .node .other (tl + 4 + cl) (tl + 4 + cl) (2 * tl + cl + 4) [],
    .node .other (2 * tl + cl + 4) (2 * tl + cl + 4) (2 * tl + cl + 5) []]

/-- Modelled from the spec: the JSX element node of `<T>C</T>`. -/
def elemNode (tl cl : Nat) : TsNode :=
  .node .jsxElement 0 0 (2 * tl + cl + 5)
    [elemOpening tl, elemTextNode tl cl, elemClosing tl cl]

/-- Modelled from the spec: the parse tree of `<T>C</T>` (tag-name
length `tl`, content length `cl`): a source file containing one JSX
element with an attribute-free opening tag, one JSX text node and a
closing tag. -/
def elementTree (tl cl : Nat) : TsNode :=
  .node .other 0 0 (2 * tl + cl + 5) [elemNode tl cl]

/-- Modelled from the spec: the opening fragment `<>`. -/
def fragOpening : TsNode :=
  .node .jsxOpeningFragment 0 0 2 [.node .other 0 0 1 [], .node .other 1 1 2 []]

/-- Modelled from the spec: the JSX text node of `<>X</>`. -/
def fragTextNode (n : Nat) : TsNode := .node .jsxText 2 2 (2 + n) []

/-- Modelled from the spec: the closing fragment `</>` of `<>X</>`. -/
def fragClosing (n : Nat) : TsNode :=
  .node .jsxClosingFragment (2 + n) (2 + n) (n + 5) [
    .node .other (2 + n) (2 + n) (4 + n) [],
    .node .other (4 + n) (4 + n) (n + 5) []]

/-- Modelled from the spec: the JSX fragment node of `<>X</>`. -/
def fragNode (n : Nat) : TsNode :=
  .node .jsxFragment 0 0 (n + 5) [fragOpening, fragTextNode n, fragClosing n]

/-- Modelled from the spec: the parse tree of `<>X</>` (content length
`n`): one JSX fragment with opening fragment, JSX text and closing
fragment. -/
def fragmentTree (n : Nat) : TsNode :=
  .node .other 0 0 (n + 5) [fragNode n]

/-- Modelled from the spec: the embedded-expression node `{E}` of
`<T>{E}</T>`: brace tokens around an opaque inner expression. -/
def exprJsxExpr (tl el : Nat) : TsNode :=
  .node .jsxExpression (tl + 2) (tl + 2) (tl + 4 + el) [
    .node .other (tl + 2) (tl + 2) (tl + 3) [],
    .node .other (tl + 3) (tl + 3) (tl + 3 + el) [],
    .node .other (tl + 3 + el) (tl + 3 + el) (tl + 4 + el) []]

/-- Modelled from the spec: the JSX element node of `<T>{E}</T>`. -/
def exprElemNode (tl el : Nat) : TsNode :=
  .node .jsxElement 0 0 (2 * tl + el + 7) [
    elemOpening tl,
    exprJsxExpr tl el,
    .node .jsxClosingElement (tl + 4 + el) (tl + 4 + el) (2 * tl + el + 7) [
      .node .other (tl + 4 + el) (tl + 4 + el) (tl + 6 + el) [],
      .node .other (tl + 6 + el) (tl + 6 + el) (2 * tl + el + 6) [],
      .node .other (2 * tl + el + 6) (2 * tl + el + 6) (2 * tl + el + 7) []]]

/-- Modelled from the spec: the parse tree of `<T>{E}</T>` (tag-name
length `tl`, expression length `el`): one JSX element whose only child
is an embedded-expression node spanning the braces. -/
def exprElementTree (tl el : Nat) : TsNode :=
  .node .other 0 0 (2 * tl + el + 7) [exprElemNode tl el]

/-- Modelled from the spec: the parse tree of
`<tag>{cond && <span>X</span>}</tag>` (35 characters): the embedded
expression spans `[5, 29)` and holds `cond && <span>X</span>`, whose
right operand is itself a JSX element with text node `X` at `[20, 21)`. -/
def nestedExprTree : TsNode :=
  .node .other 0 0 35 [
    .node .jsxElement 0 0 35 [
      .node .jsxOpeningElement 0 0 5 [
        .node .other 0 0 1 [],
        .node .other 1 1 4 [],
        .node .jsxAttributes 4 4 4 [],
        .node .other 4 4 5 []],
      .node .jsxExpression 5 5 29 [
        .node .other 5 5 6 [],
        .node .other 6 6 28 [
          .node .other 6 6 10 [],
          .node .other 10 11 13 [],
          .node .jsxElement 13 14 28 [
            .node .jsxOpeningElement 13 14 20 [
              .node .other 13 14 15 [],
              .node .other 15 15 19 [],
              .node .jsxAttributes 19 19 19 [],
              .node .other 19 19 20 []],
            .node .jsxText 20 20 21 [],
            .node .jsxClosingElement 21 21 28 [
              .node .other 21 21 23 [],
              .node .other 23 23 27 [],
              .node .other 27 27 28 []]]],
        .node .other 28 28 29 []],
      .node .jsxClosingElement 29 29 35 [
        .node .other 29 29 31 [],
        .node .other 31 31 34 [],
        .node .other 34 34 35 []]]]

/-- Modelled from the spec: the parse tree of a buffer of length `len`
that contains no JSX anywhere (comparisons, generic instantiations,
plain code): the classifier only ever asks such a tree whether it
contains a JSX node (`containsJsx` short-circuits to false), so its
inner structure is irrelevant and omitted. -/
def noJsxTree (len : Nat) : TsNode := .node .other 0 0 len []

/-- Modelled from the spec: the parse tree of the empty buffer. -/
def emptyTree : TsNode := noJsxTree 0

/-- Modelled from the spec: the parse tree of `cond && <div>X</div>`:
a binary expression whose right operand is a JSX element with text `X`
at `[13, 14)`.  (`cond || <div>X</div>` parses to the same spans.) -/
def condAndTree : TsNode :=
  .node .other 0 0 20 [
    .node .other 0 0 20 [
      .node .other 0 0 4 [],
      .node .other 4 5 7 [],
      .node .jsxElement 7 8 20 [
        .node .jsxOpeningElement 7 8 13 [
          .node .other 7 8 9 [],
          .node .other 9 9 12 [],
          .node .jsxAttributes 12 12 12 [],
          .node .other 12 12 13 []],
        .node .jsxText 13 13 14 [],
        .node .jsxClosingElement 14 14 20 [
          .node .other 14 14 16 [],
          .node .other 16 16 19 [],
          .node .other 19 19 20 []]]]]

/-- Modelled from the spec: the parse tree of `return <div>X</div>`:
a return statement whose argument is a JSX element with text `X` at
`[12, 13)`. -/
def returnTree : TsNode :=
  .node .other 0 0 19 [
    .node .other 0 0 19 [
      .node .other 0 0 6 [],
      .node .jsxElement 6 7 19 [
        .node .jsxOpeningElement 6 7 12 [
          .node .other 6 7 8 [],
          .node .other 8 8 11 [],
          .node .jsxAttributes 11 11 11 [],
          .node .other 11 11 12 []],
        .node .jsxText 12 12 13 [],
        .node .jsxClosingElement 13 13 19 [
          .node .other 13 13 15 [],
          .node .other 15 15 18 [],
          .node .other 18 18 19 []]]]]

/-- Modelled from the spec: the parse tree of `a ? <div>X</div> : null`:
a conditional expression whose then-branch is a JSX element with text
`X` at `[9, 10)`. -/
def ternaryTree : TsNode :=
  .node .other 0 0 23 [
    .node .other 0 0 23 [
      .node .other 0 0 1 [],
      .node .other 1 2 3 [],
      .node .jsxElement 3 4 16 [
        .node .jsxOpeningElement 3 4 9 [
          .node .other 3 4 5 [],
          .node .other 5 5 8 [],
          .node .jsxAttributes 8 8 8 [],
          .node .other 8 8 9 []],
        .node .jsxText 9 9 10 [],
        .node .jsxClosingElement 10 10 16 [
          .node .other 10 10 12 [],
          .node .other 12 12 15 [],
          .node .other 15 15 16 []]],
      .node .other 16 17 18 [],
      .node .other 18 19 23 []]]

/-!  ## Spec-side definitions

Independent formulations of the quantities named by the specification's
description of the markup scanner, used to compare the code against the
specified algorithm. -/

/-- Spec-side: is `o` inside an HTML comment that is still unclosed at
`o` — some `<!--` begins at or before `o` and no `-->` is completed at
or before `o` after it? -/
def insideUnclosedComment (t : List Char) (o : Nat) : Bool :=
  (List.range (o + 1)).any fun p =>
    sliceEq t p comPat &&
      !((List.range o).any fun e =>
        sliceEq t e endPat && decide (p ≤ e) && decide (e + 3 ≤ o))

/-- Spec-side amended comment clause: the last `<!--` at or before the
offset begins after the last `>` before the offset (position `g`) and is
not closed by a `-->` beginning before the offset. -/
def specUnclosedCommentAfter (t : List Char) (o g : Nat) : Bool :=
  match ((List.range (o + 1)).filter fun p => sliceEq t p comPat).getLast? with
  | none => false
  | some p =>
    decide (g < p) &&
      (match (List.range' p (t.length - p)).find? (fun e => sliceEq t e endPat) with
       | none => true
       | some e => decide (o ≤ e))

/-- Spec-side verdict of the markup scanner, written from the claim's
description (with the comment clause amended as above): find the last
`>` and last `<` strictly before the offset; no `>` or a later `<`
yields false; the amended comment clause yields false; otherwise the
verdict is `offset > lastClose ∧ offset ≤ nextOpen` where `nextOpen` is
the first `<` at or after the offset, or end of text. -/
def markupSpecVerdict (t : List Char) (o : Nat) : Bool :=
  match ((List.range o).filter fun i => charAt t i == '>').getLast? with
  | none => false
  | some g =>
    let badLt :=
      match ((List.range o).filter fun i => charAt t i == '<').getLast? with
      | some l => decide (g < l)
      | none => false
    if badLt then false
    else if specUnclosedCommentAfter t o g then false
    else
      let n : Nat :=
        match (List.range' o (t.length - o)).find? (fun i => charAt t i == '<') with
        | some p => p
        | none => t.length
      decide (g < o ∧ o ≤ n)

/-- Characters that may appear in modelled element text content: letters
and spaces. -/
def isTextChar (c : Char) : Bool := c.isAlpha || c == ' '

/-- Characters allowed inside a modelled embedded expression: anything
except string/template delimiters and braces (so the expression is a
single balanced-brace, unquoted token stream — in particular `<`, `>`,
`&`, `|`, `/` and letters are allowed). -/
def isExprChar (c : Char) : Bool :=
  !(c == '"' || c == sqc || c == bq || c == '{' || c == '}')

/-- Characters that the heuristic scanner is guaranteed to ignore in any
state outside strings and templates. -/
def inertChar (c : Char) : Bool :=
  !(c == '"' || c == sqc || c == bq || c == '{' || c == '}' || c == '<' || c == '>')

/-- Scan State while positioned inside the opening tag `<T`. -/
def tagState : ScanState := { initScan with inJsxTag := true }

/-- Scan State right after the opening `<T>` of an element whose tag
name has length `tl` (also the state right after a fragment open `<>`
with `tl = 0`). -/
def contentState (tl : Nat) : ScanState :=
  ⟨false, nul, false, 0, 0, 0, 1, false, ((tl + 1 : Nat) : Int), true⟩

/-- Scan State inside the embedded expression `{...` of
`<T>`-prefixed text. -/
def exprState (tl : Nat) : ScanState := { contentState tl with jsxBraceDepth := 1 }

/-- Modelled from the spec: the 35-character buffer
`<tag>(cond && <span>X</span>)</tag>` with braces in place of the
parentheses; the embedded expression spans `[5, 29)` and the inner
element's text `X` sits at offset 20. -/
def nestedText : List Char :=
  "<tag>\x7bcond && <span>X</span>\x7d</tag>".data

/-!  ## Lemmas about the heuristic scanner's fold  -/

theorem scanAcc_zero (t : List Char) : scanAcc t 0 = (initScan, 0) := rfl

theorem scanAcc_succ (t : List Char) (o : Nat) :
    scanAcc t (o + 1) = scanPos t (scanAcc t o) o := by
  simp [scanAcc, List.range_succ]

theorem scanAcc_eq_of_id (t : List Char) (o1 : Nat) :
    ∀ o2, o1 ≤ o2 → (∀ i, o1 ≤ i → i < o2 → scanPos t (scanAcc t o1) i = scanAcc t o1) →
      scanAcc t o2 = scanAcc t o1 := by
  intro o2
  induction o2 with
  | zero =>
    intro h _
    have : o1 = 0 := by omega
    rw [this]
  | succ n ih =>
    intro h hid
    rcases Nat.lt_or_ge o1 (n + 1) with hlt | hge
    · have hle : o1 ≤ n := by omega
      have hn : scanAcc t n = scanAcc t o1 :=
        ih hle fun i h1 h2 => hid i h1 (by omega)
      rw [scanAcc_succ, hn, hid n hle (by omega)]
    · have : o1 = n + 1 := by omega
      rw [this]

theorem stringStep_none (char prevChar : Char) (s : ScanState)
    (hs : s.inString = false) (ht : s.inTemplate = false)
    (h1 : (char == '"') = false) (h2 : (char == sqc) = false) :
    stringStep char prevChar s = none := by
  unfold stringStep
  simp [hs, ht, h1, h2]

theorem templateStep_none (char nextChar : Char) (s : ScanState)
    (ht : s.inTemplate = false) (h3 : (char == bq) = false) :
    templateStep char nextChar s = none := by
  unfold templateStep
  simp [ht, h3]

theorem braceTrack_id (char : Char) (s : ScanState)
    (h4 : (char == '{') = false) (h5 : (char == '}') = false) :
    braceTrack char s = s := by
  unfold braceTrack
  simp [h4, h5]

theorem tagStep_id (t : List Char) (i : Nat) (char prevChar nextChar : Char)
    (s : ScanState) (h6 : (char == '<') = false) (h7 : (char == '>') = false) :
    tagStep t i char prevChar nextChar s = (s, 1) := by
  unfold tagStep
  simp [h6, h7]

theorem jsxStep_inert (t : List Char) (i : Nat) (s : ScanState)
    (hc : inertChar (charAt t i) = true)
    (hs : s.inString = false) (ht : s.inTemplate = false) :
    jsxStep t i s = (s, 1) := by
  unfold inertChar at hc
  simp only [Bool.not_eq_true', Bool.or_eq_false_iff] at hc
  obtain ⟨⟨⟨⟨⟨⟨h1, h2⟩, h3⟩, h4⟩, h5⟩, h6⟩, h7⟩ := hc
  unfold jsxStep
  dsimp only
  rw [stringStep_none _ _ _ hs ht h1 h2, templateStep_none _ _ _ ht h3,
    braceTrack_id _ _ h4 h5, tagStep_id _ _ _ _ _ _ h6 h7]
  simp

theorem jsxStep_expr (t : List Char) (i : Nat) (s : ScanState)
    (hc : isExprChar (charAt t i) = true)
    (hs : s.inString = false) (ht : s.inTemplate = false)
    (hd : 0 < s.jsxBraceDepth) :
    jsxStep t i s = (s, 1) := by
  unfold isExprChar at hc
  simp only [Bool.not_eq_true', Bool.or_eq_false_iff] at hc
  obtain ⟨⟨⟨⟨h1, h2⟩, h3⟩, h4⟩, h5⟩ := hc
  unfold jsxStep
  dsimp only
  rw [stringStep_none _ _ _ hs ht h1 h2, templateStep_none _ _ _ ht h3,
    braceTrack_id _ _ h4 h5]
  simp [hd]

theorem scanPos_of_step_one (t : List Char) (i : Nat) (s : ScanState)
    (h : jsxStep t i s = (s, 1)) : scanPos t (s, 0) i = (s, 0) := by
  simp [scanPos, h]

/-!  ## Claim C3  -/

/-- C3.  Generic/comparison vs. tag disambiguation: on
`useState<string>(...)`, `Array<number>`, `Map<string, number>`,
`function f<T>(...)`, `a < b`, `a > b`, `a <= b` and `x < y ? 1 : 2`,
the heuristic scanner and the tree classifier return false at every
offset of the buffer (in particular at every offset adjacent to or
inside the angle brackets); on `cond && <div>X</div>`,
`cond || <div>X</div>`, `return <div>X</div>` and
`a ? <div>X</div> : null`, both return true at the offsets inside `X`. -/
theorem c3_generic_comparison_disambiguation :
    (((List.range 22).all fun o => !isInJsxTextContent "useState<string>(...)".data o) = true ∧
     ((List.range 14).all fun o => !isInJsxTextContent "Array<number>".data o) = true ∧
     ((List.range 20).all fun o => !isInJsxTextContent "Map<string, number>".data o) = true ∧
     ((List.range 19).all fun o => !isInJsxTextContent "function f<T>(...)".data o) = true ∧
     ((List.range 6).all fun o => !isInJsxTextContent "a < b".data o) = true ∧
     ((List.range 6).all fun o => !isInJsxTextContent "a > b".data o) = true ∧
     ((List.range 7).all fun o => !isInJsxTextContent "a <= b".data o) = true ∧
     ((List.range 14).all fun o => !isInJsxTextContent "x < y ? 1 : 2".data o) = true) ∧
    (((List.range 22).all fun o =>
        !isJsxTextContext "typescriptreact" "useState<string>(...)".data (noJsxTree 21) (o : Int)) = true ∧
     ((List.range 14).all fun o =>
        !isJsxTextContext "typescriptreact" "Array<number>".data (noJsxTree 13) (o : Int)) = true ∧
     ((List.range 20).all fun o =>
        !isJsxTextContext "typescriptreact" "Map<string, number>".data (noJsxTree 19) (o : Int)) = true ∧
     ((List.range 19).all fun o =>
        !isJsxTextContext "typescriptreact" "function f<T>(...)".data (noJsxTree 18) (o : Int)) = true ∧
     ((List.range 6).all fun o =>
        !isJsxTextContext "typescriptreact" "a < b".data (noJsxTree 5) (o : Int)) = true ∧
     ((List.range 6).all fun o =>
        !isJsxTextContext "typescriptreact" "a > b".data (noJsxTree 5) (o : Int)) = true ∧
     ((List.range 7).all fun o =>
        !isJsxTextContext "typescriptreact" "a <= b".data (noJsxTree 6) (o : Int)) = true ∧
     ((List.range 14).all fun o =>
        !isJsxTextContext "typescriptreact" "x < y ? 1 : 2".data (noJsxTree 13) (o : Int)) = true) ∧
    (isInJsxTextContent "cond && <div>X</div>".data 13 = true ∧
     isInJsxTextContent "cond && <div>X</div>".data 14 = true ∧
     isInJsxTextContent "cond || <div>X</div>".data 13 = true ∧
     isInJsxTextContent "cond || <div>X</div>".data 14 = true ∧
     isInJsxTextContent "return <div>X</div>".data 12 = true ∧
     isInJsxTextContent "return <div>X</div>".data 13 = true ∧
     isInJsxTextContent "a ? <div>X</div> : null".data 9 = true ∧
     isInJsxTextContent "a ? <div>X</div> : null".data 10 = true) ∧
    (isJsxTextContext "typescriptreact" "cond && <div>X</div>".data condAndTree 13 = true ∧
     isJsxTextContext "typescriptreact" "cond && <div>X</div>".data condAndTree 14 = true ∧
     isJsxTextContext "typescriptreact" "cond || <div>X</div>".data condAndTree 13 = true ∧
     isJsxTextContext "typescriptreact" "cond || <div>X</div>".data condAndTree 14 = true ∧
     isJsxTextContext "typescriptreact" "return <div>X</div>".data returnTree 12 = true ∧
     isJsxTextContext "typescriptreact" "return <div>X</div>".data returnTree 13 = true ∧
     isJsxTextContext "typescriptreact" "a ? <div>X</div> : null".data ternaryTree 9 = true ∧
     isJsxTextContext "typescriptreact" "a ? <div>X</div> : null".data ternaryTree 10 = true) := by
  decide


/-!  ## Depth invariants of the heuristic scanner  -/

theorem closingCheck_depths (t : List Char) (i : Nat) (s : ScanState)
    (h : 0 ≤ s.jsxTagDepth) :
    0 ≤ (closingCheck t i s).jsxTagDepth ∧
      (closingCheck t i s).jsxBraceDepth = s.jsxBraceDepth := by
  unfold closingCheck
  cases hj1 : (if i = 0 then none else skipBack isTagNameChar t (i - 1)) with
  | none => simp; omega
  | some j =>
    cases hj2 : skipBack isJsSpace t j with
    | none => simp [hj2]; omega
    | some j2 =>
      dsimp only
      rw [hj2]
      repeat' split
      all_goals simp
      all_goals omega

theorem braceTrack_depths (char : Char) (s : ScanState)
    (h : 0 ≤ s.jsxBraceDepth) :
    0 ≤ (braceTrack char s).jsxBraceDepth ∧
      (braceTrack char s).jsxTagDepth = s.jsxTagDepth := by
  unfold braceTrack
  dsimp only
  split_ifs <;> constructor
  all_goals simp_all
  all_goals omega

theorem tagStep_depths (t : List Char) (i : Nat) (char prevChar nextChar : Char)
    (s : ScanState) (h1 : 0 ≤ s.jsxBraceDepth) (h2 : 0 ≤ s.jsxTagDepth) :
    0 ≤ (tagStep t i char prevChar nextChar s).1.jsxBraceDepth ∧
      0 ≤ (tagStep t i char prevChar nextChar s).1.jsxTagDepth := by
  unfold tagStep
  dsimp only
  split_ifs <;>
    first
      | (constructor <;> simp_all <;> omega)
      | (dsimp only
         refine ⟨?_, ?_⟩
         · rw [(closingCheck_depths t i _ (by simp_all)).2]
           simp_all
         · exact (closingCheck_depths t i _ (by simp_all)).1)

theorem stringStep_fields (char prevChar : Char) (s s' : ScanState)
    (h : stringStep char prevChar s = some s') :
    s'.jsxBraceDepth = s.jsxBraceDepth ∧ s'.jsxTagDepth = s.jsxTagDepth := by
  unfold stringStep at h
  split_ifs at h <;> first
    | (injection h with h; subst h; exact ⟨rfl, rfl⟩)
    | cases h

theorem templateStep_fields (char nextChar : Char) (s s' : ScanState)
    (h : templateStep char nextChar s = some s') :
    s'.jsxBraceDepth = s.jsxBraceDepth ∧ s'.jsxTagDepth = s.jsxTagDepth := by
  unfold templateStep at h
  split_ifs at h <;> first
    | (injection h with h; subst h; refine ⟨?_, ?_⟩ <;> (try split_ifs) <;> rfl)
    | cases h

theorem jsxStep_depths (t : List Char) (i : Nat) (s : ScanState)
    (h1 : 0 ≤ s.jsxBraceDepth) (h2 : 0 ≤ s.jsxTagDepth) :
    0 ≤ (jsxStep t i s).1.jsxBraceDepth ∧ 0 ≤ (jsxStep t i s).1.jsxTagDepth := by
  unfold jsxStep
  dsimp only
  cases hss : stringStep (charAt t i) (if 0 < i then charAt t (i - 1) else nul) s with
  | some s' =>
    obtain ⟨e1, e2⟩ := stringStep_fields _ _ _ _ hss
    simpa [e1, e2] using ⟨h1, h2⟩
  | none =>
    cases hts : templateStep (charAt t i) (charAt t (i + 1)) s with
    | some s' =>
      obtain ⟨e1, e2⟩ := templateStep_fields _ _ _ _ hts
      simpa [e1, e2] using ⟨h1, h2⟩
    | none =>
      obtain ⟨b1, b2⟩ := braceTrack_depths (charAt t i) s h1
      dsimp only
      split_ifs
      all_goals
        first
          | exact ⟨b1, by rw [b2]; exact h2⟩
          | exact tagStep_depths t i _ _ _ _ b1 (by rw [b2]; exact h2)

theorem scanAcc_depths (t : List Char) (o : Nat) :
    0 ≤ (scanAcc t o).1.jsxBraceDepth ∧ 0 ≤ (scanAcc t o).1.jsxTagDepth := by
  induction o with
  | zero => exact ⟨le_refl 0, le_refl 0⟩
  | succ n ih =>
    rw [scanAcc_succ]
    rcases hst : scanAcc t n with ⟨s, pending⟩
    rw [hst] at ih
    cases pending with
    | zero => exact jsxStep_depths t n s ih.1 ih.2
    | succ k => exact ih

/-!  ## Claim C7  -/

/-- C7 (counterexample).  The code-level brace depth is not clamped: on
the one-character buffer consisting of a closing brace, scanning to
offset 1 drives `braceDepth` to `-1`. -/
theorem c7_brace_depth_underflow_cex :
    (scanAcc "\x7d".data 1).1.braceDepth = -1 := by decide

/-- C7 (amended).  The two depth counters that the verdict consults —
the markup-expression brace depth and the tag-nesting depth — are
clamped at 0 and never become negative, for every input text and offset
(so a stray closing delimiter cannot produce a true verdict by
underflow); the code-level brace depth is tracked without a clamp and
can go negative, but it is never read by the verdict. -/
theorem c7_depth_clamping_amended : ∀ (t : List Char) (o : Nat),
    0 ≤ (scanAcc t o).1.jsxBraceDepth ∧ 0 ≤ (scanAcc t o).1.jsxTagDepth :=
  scanAcc_depths

/-!  ## Claims C10, C8, C6  -/

/-- Helper: every code-dialect language identifier is outside the markup
set. -/
theorem jsx_lang_not_markup (lang : String)
    (h : JSX_LANGUAGES.contains lang = true) :
    MARKUP_LANGUAGES.contains lang = false := by
  have hmem : lang ∈ JSX_LANGUAGES := by simpa using h
  fin_cases hmem <;> decide

theorem int_toNat_len (n : Nat) : ((n : Int)).toNat = n := Int.toNat_natCast n

/-- C10.  End-of-document offset for code dialects: for every JSX/TS
buffer and every parse tree whose root span ends at the buffer length
(as the parser guarantees), `isJsxTextContext` at offset exactly
`length(text)` returns false, because the deepest-node search uses
half-open spans and the end-of-document position lies inside no node —
unlike the markup path, where an end-of-document offset after a tag
close classifies true (second conjunct, on `<b>x` at offset 4). -/
theorem c10_end_of_document_offset :
    (∀ (lang : String) (t : List Char) (tree : TsNode),
        JSX_LANGUAGES.contains lang = true → tree.endPos = t.length →
        isJsxTextContext lang t tree (t.length : Int) = false) ∧
    isMarkupTextContext "<b>x".data 4 = true := by
  constructor
  · intro lang t tree hlang hend
    have hm := jsx_lang_not_markup lang hlang
    unfold isJsxTextContext
    rw [hm]
    simp only [Bool.false_eq_true, if_false]
    rw [if_neg (by omega)]
    unfold classifyTreeCore
    cases hc : containsJsxF treeFuel tree
    · simp [hc]
    · simp only [hc, Bool.not_true, Bool.false_eq_true, if_false]
      have hnone : findDeepestChainF treeFuel (((t.length : Int)).toNat) tree = none := by
        cases tree with
        | node k fs st en cs =>
          rw [show treeFuel = 11 + 1 from rfl]
          unfold findDeepestChainF
          rw [if_pos]
          right
          simp only [TsNode.endPos] at hend ⊢
          rw [int_toNat_len]
          omega
      rw [hnone]
  · decide

/-- C8.  Fail-safe defaults: the detector entry point returns false and
leaves the cache untouched, invoking no scanner (the verdict does not
depend on the supplied classifier functions), when the language
identifier is outside both the JSX set and the markup set; both
classifiers return false when the offset is out of range
(`offset < 0` or `offset > length(text)`); and empty input at offset 0
classifies false on both paths. -/
theorem c8_fail_safe_defaults :
    (∀ (ttl : Nat) (f g : EdDoc → EdPos → Bool) (cache : Option CacheEntry)
       (doc : EdDoc) (pos : EdPos) (now : Int),
        (JSX_LANGUAGES.contains doc.languageId ||
          MARKUP_LANGUAGES.contains doc.languageId) = false →
        detectorIsInsideJsxText ttl f g cache doc pos now = (false, cache)) ∧
    (∀ (lang : String) (t : List Char) (tree : TsNode) (off : Int),
        MARKUP_LANGUAGES.contains lang = false →
        (off < 0 ∨ (t.length : Int) < off) →
        isJsxTextContext lang t tree off = false) ∧
    (∀ (t : List Char) (off : Int), (off < 0 ∨ (t.length : Int) < off) →
        isMarkupTextContext t off = false) ∧
    isJsxTextContext "typescriptreact" [] emptyTree 0 = false ∧
    isMarkupTextContext [] 0 = false := by
  refine ⟨?_, ?_, ?_, by decide, by decide⟩
  · intro ttl f g cache doc pos now h
    unfold detectorIsInsideJsxText
    rw [h]
    simp
  · intro lang t tree off hm hoff
    unfold isJsxTextContext
    rw [hm]
    simp only [Bool.false_eq_true, if_false]
    rw [if_pos hoff]
  · intro t off hoff
    unfold isMarkupTextContext
    rw [if_pos hoff]

theorem c8_fail_safe_defaults_witness :
    detectorIsInsideJsxText 500 (fun _ _ => true) (fun _ _ => true) none
        ⟨"python", "file", 1⟩ ⟨0, 0⟩ 0 = (false, none) ∧
    isJsxTextContext "typescript" ['a'] (noJsxTree 1) 2 = false ∧
    isMarkupTextContext ['a'] (-1) = false :=
  ⟨c8_fail_safe_defaults.1 500 _ _ none ⟨"python", "file", 1⟩ ⟨0, 0⟩ 0 (by decide),
   c8_fail_safe_defaults.2.1 "typescript" ['a'] (noJsxTree 1) 2 (by decide) (by decide),
   c8_fail_safe_defaults.2.2.1 ['a'] (-1) (by decide)⟩

/-- C6.  Cache correctness, for `JsxContextDetector.isInsideJsxText` on
a code-dialect document: (1) a call whose cache slot is valid for
`(uri, version, position)` at the current time returns the stored
verdict with the cache unchanged, for any classifier function (so
nothing is recomputed); (2) after a recomputing call, a second call at
the same `(uri, version, position)` within the TTL returns the first
call's verdict and leaves its cache entry in place, again for any
classifier function; (3) whenever the cache is invalid the call
recomputes and stores a fresh entry; (4) cache validity is exactly
equality of uri, version and position plus a nonzero TTL and an entry
age below the TTL — so any change of uri, version or position, an age
of at least TTL, or a TTL of 0 forces recomputation. -/
theorem c6_cache_correctness :
    (∀ (ttl : Nat) (f fM : EdDoc → EdPos → Bool) (c : CacheEntry)
       (doc : EdDoc) (pos : EdPos) (now : Int),
        JSX_LANGUAGES.contains doc.languageId = true →
        isCacheValid ttl (some c) doc pos now = true →
        detectorIsInsideJsxText ttl f fM (some c) doc pos now = (c.result, some c)) ∧
    (∀ (ttl : Nat) (f fM g gM : EdDoc → EdPos → Bool) (cache : Option CacheEntry)
       (doc : EdDoc) (pos : EdPos) (now1 now2 : Int),
        JSX_LANGUAGES.contains doc.languageId = true →
        isCacheValid ttl cache doc pos now1 = false →
        ttl ≠ 0 → now2 - now1 < (ttl : Int) →
        detectorIsInsideJsxText ttl g gM
            (detectorIsInsideJsxText ttl f fM cache doc pos now1).2 doc pos now2 =
          detectorIsInsideJsxText ttl f fM cache doc pos now1 ∧
        (detectorIsInsideJsxText ttl f fM cache doc pos now1).1 = f doc pos) ∧
    (∀ (ttl : Nat) (f fM : EdDoc → EdPos → Bool) (cache : Option CacheEntry)
       (doc : EdDoc) (pos : EdPos) (now : Int),
        JSX_LANGUAGES.contains doc.languageId = true →
        isCacheValid ttl cache doc pos now = false →
        detectorIsInsideJsxText ttl f fM cache doc pos now =
          (f doc pos, some ⟨doc.uri, doc.version, pos, now, f doc pos⟩)) ∧
    (∀ (ttl : Nat) (c : CacheEntry) (doc : EdDoc) (pos : EdPos) (now : Int),
        isCacheValid ttl (some c) doc pos now = true ↔
          (c.uri = doc.uri ∧ c.version = doc.version ∧ c.position = pos ∧
           ttl ≠ 0 ∧ now - c.timestamp < (ttl : Int))) := by
  have hmiss : ∀ (ttl : Nat) (f fM : EdDoc → EdPos → Bool) (cache : Option CacheEntry)
      (doc : EdDoc) (pos : EdPos) (now : Int),
      JSX_LANGUAGES.contains doc.languageId = true →
      isCacheValid ttl cache doc pos now = false →
      detectorIsInsideJsxText ttl f fM cache doc pos now =
        (f doc pos, some ⟨doc.uri, doc.version, pos, now, f doc pos⟩) := by
    intro ttl f fM cache doc pos now hlang hv
    unfold detectorIsInsideJsxText
    rw [hlang, jsx_lang_not_markup _ hlang, hv]
    simp
  have hhit : ∀ (ttl : Nat) (f fM : EdDoc → EdPos → Bool) (c : CacheEntry)
      (doc : EdDoc) (pos : EdPos) (now : Int),
      JSX_LANGUAGES.contains doc.languageId = true →
      isCacheValid ttl (some c) doc pos now = true →
      detectorIsInsideJsxText ttl f fM (some c) doc pos now = (c.result, some c) := by
    intro ttl f fM c doc pos now hlang hv
    unfold detectorIsInsideJsxText
    rw [hlang, jsx_lang_not_markup _ hlang, hv]
    simp
  refine ⟨hhit, ?_, hmiss, ?_⟩
  · intro ttl f fM g gM cache doc pos now1 now2 hlang hv httl hlt
    rw [hmiss ttl f fM cache doc pos now1 hlang hv]
    have hv2 : isCacheValid ttl
        (some ⟨doc.uri, doc.version, pos, now1, f doc pos⟩) doc pos now2 = true := by
      unfold isCacheValid
      simp [httl, hlt]
    rw [hhit ttl g gM _ doc pos now2 hlang hv2]
    exact ⟨rfl, rfl⟩
  · intro ttl c doc pos now
    unfold isCacheValid
    split_ifs <;> simp_all

theorem c6_cache_correctness_witness :
    detectorIsInsideJsxText 500 (fun _ _ => false) (fun _ _ => false)
        (some ⟨"u", 1, ⟨0, 0⟩, 0, true⟩) ⟨"typescript", "u", 1⟩ ⟨0, 0⟩ 10 =
      (true, some ⟨"u", 1, ⟨0, 0⟩, 0, true⟩) :=
  c6_cache_correctness.1 500 _ _ ⟨"u", 1, ⟨0, 0⟩, 0, true⟩ ⟨"typescript", "u", 1⟩
    ⟨0, 0⟩ 10 (by decide) (by decide)

theorem c10_end_of_document_offset_witness :
    isJsxTextContext "typescript" "<b>x".data (noJsxTree 4) 4 = false :=
  c10_end_of_document_offset.1 "typescript" "<b>x".data (noJsxTree 4)
    (by decide) (by decide)

/-!  ## Character and search characterization lemmas  -/

theorem charAt_cons_zero (c : Char) (l : List Char) : charAt (c :: l) 0 = c := rfl

theorem charAt_cons_succ (c : Char) (l : List Char) (k : Nat) :
    charAt (c :: l) (k + 1) = charAt l k := rfl

theorem charAt_append_left (l1 l2 : List Char) (k : Nat) (h : k < l1.length) :
    charAt (l1 ++ l2) k = charAt l1 k := by
  induction l1 generalizing k with
  | nil => simp at h
  | cons a as ih =>
    cases k with
    | zero => rfl
    | succ m =>
      simp only [List.cons_append, charAt_cons_succ]
      exact ih m (by simpa using h)

theorem charAt_append_right (l1 l2 : List Char) (k : Nat) (h : l1.length ≤ k) :
    charAt (l1 ++ l2) k = charAt l2 (k - l1.length) := by
  induction l1 generalizing k with
  | nil => simp
  | cons a as ih =>
    cases k with
    | zero => simp at h
    | succ m =>
      simp only [List.cons_append, charAt_cons_succ, List.length_cons]
      rw [ih m (by simpa using h)]
      congr 1
      omega

theorem all_charAt (l : List Char) (p : Char → Bool) (h : l.all p) (j : Nat)
    (hj : j < l.length) : p (charAt l j) = true := by
  induction l generalizing j with
  | nil => simp at hj
  | cons a as ih =>
    simp only [List.all_cons, Bool.and_eq_true] at h
    cases j with
    | zero => exact h.1
    | succ m => exact ih h.2 m (by simpa using hj)

theorem lastHitAux_spec_some (f : Nat → Bool) :
    ∀ (k p : Nat), p ≤ k → f p = true → (∀ q, p < q → q ≤ k → f q = false) →
      lastHitAux f k = p := by
  intro k
  induction k with
  | zero =>
    intro p hp hf _
    have : p = 0 := by omega
    subst this
    simp [lastHitAux, hf]
  | succ n ih =>
    intro p hp hf hmax
    by_cases hpk : p = n + 1
    · subst hpk
      simp [lastHitAux, hf]
    · have h1 : f (n + 1) = false := hmax (n + 1) (by omega) (by omega)
      simp only [lastHitAux, h1, Bool.false_eq_true, if_false]
      exact ih p (by omega) hf fun q h2 h3 => hmax q h2 (by omega)

theorem lastHitAux_spec_none (f : Nat → Bool) :
    ∀ k, (∀ q, q ≤ k → f q = false) → lastHitAux f k = -1 := by
  intro k
  induction k with
  | zero => intro h; simp [lastHitAux, h 0 (le_refl 0)]
  | succ n ih =>
    intro h
    simp only [lastHitAux, h (n + 1) (le_refl _), Bool.false_eq_true, if_false]
    exact ih fun q hq => h q (by omega)

theorem firstHit_spec_some (f : Nat → Bool) :
    ∀ (fuel start p : Nat), start ≤ p → p < start + fuel → f p = true →
      (∀ q, start ≤ q → q < p → f q = false) → firstHit f fuel start = some p := by
  intro fuel
  induction fuel with
  | zero => intro start p h1 h2; omega
  | succ n ih =>
    intro start p h1 h2 hf hmin
    by_cases hsp : start = p
    · subst hsp
      simp [firstHit, hf]
    · have h3 : f start = false := hmin start (le_refl _) (by omega)
      simp only [firstHit, h3, Bool.false_eq_true, if_false]
      exact ih (start + 1) p (by omega) (by omega) hf fun q hq1 hq2 =>
        hmin q (by omega) hq2

theorem firstHit_spec_none (f : Nat → Bool) :
    ∀ (fuel start : Nat), (∀ q, start ≤ q → q < start + fuel → f q = false) →
      firstHit f fuel start = none := by
  intro fuel
  induction fuel with
  | zero => intro start _; rfl
  | succ n ih =>
    intro start h
    simp only [firstHit, h start (le_refl _) (by omega), Bool.false_eq_true, if_false]
    exact ih (start + 1) fun q h1 h2 => h q (by omega) (by omega)

theorem lastIndexOfC_nat_eq (t : List Char) (c : Char) (o : Nat) (p : Nat)
    (hlen : o < t.length) (hp : charAt t p = c) (hple : p ≤ o)
    (hmax : ∀ q, p < q → q ≤ o → charAt t q ≠ c) :
    lastIndexOfC t c (o : Int) = p := by
  unfold lastIndexOfC
  rw [if_neg (by omega)]
  have hb : (min (max (o : Int) 0) ((t.length : Int) - 1)).toNat = o := by omega
  rw [hb]
  exact lastHitAux_spec_some _ o p hple (by simp [hp])
    fun q h1 h2 => by simpa using hmax q h1 h2

theorem lastIndexOfC_nat_neg (t : List Char) (c : Char) (o : Nat)
    (hlen : o < t.length) (h : ∀ q, q ≤ o → charAt t q ≠ c) :
    lastIndexOfC t c (o : Int) = -1 := by
  unfold lastIndexOfC
  rw [if_neg (by omega)]
  have hb : (min (max (o : Int) 0) ((t.length : Int) - 1)).toNat = o := by omega
  rw [hb]
  exact lastHitAux_spec_none _ o fun q hq => by simpa using h q hq

theorem indexOfC_eq (t : List Char) (c : Char) (start p : Nat)
    (hsp : start ≤ p) (hp : charAt t p = c) (hplen : p < t.length)
    (hmin : ∀ q, start ≤ q → q < p → charAt t q ≠ c) :
    indexOfC t c start = p := by
  unfold indexOfC
  rw [firstHit_spec_some _ (t.length + 1) start p hsp (by omega)
    (by simp [hp, hplen])
    (fun q h1 h2 => by
      have : charAt t q ≠ c := hmin q h1 h2
      simp [this])]

/-!  ## Character class bridges  -/

theorem beq_false_of_pred (c d : Char) (p : Char → Bool) (hc : p c = true)
    (hd : p d = false) : (c == d) = false := by
  cases h : c == d
  · rfl
  · exact absurd (eq_of_beq h ▸ hc) (by simp [hd])

theorem inertChar_of_alpha (c : Char) (h : c.isAlpha = true) :
    inertChar c = true := by
  unfold inertChar
  rw [beq_false_of_pred c '"' Char.isAlpha h (by decide),
    beq_false_of_pred c sqc Char.isAlpha h (by decide),
    beq_false_of_pred c bq Char.isAlpha h (by decide),
    beq_false_of_pred c '{' Char.isAlpha h (by decide),
    beq_false_of_pred c '}' Char.isAlpha h (by decide),
    beq_false_of_pred c '<' Char.isAlpha h (by decide),
    beq_false_of_pred c '>' Char.isAlpha h (by decide)]
  rfl

theorem inertChar_of_textChar (c : Char) (h : isTextChar c = true) :
    inertChar c = true := by
  unfold isTextChar at h
  rcases Bool.or_eq_true_iff.mp h with ha | hsp
  · exact inertChar_of_alpha c ha
  · have : c = ' ' := eq_of_beq hsp
    subst this
    decide

theorem alpha_beq_false (c d : Char) (h : c.isAlpha = true)
    (hd : d.isAlpha = false) : (c == d) = false :=
  beq_false_of_pred c d Char.isAlpha h hd

theorem tagNameChar_of_alpha (c : Char) (h : c.isAlpha = true) :
    isTagNameChar c = true := by
  unfold isTagNameChar
  rw [h]
  rfl

/-!  ## Scanning the opening of an element `<T>...`  -/

section OpenPrefix

variable (T rest : List Char)

theorem openPrefix_length :
    ('<' :: (T ++ '>' :: rest)).length = T.length + 2 + rest.length := by
  simp
  omega

theorem openPrefix_charAt_zero : charAt ('<' :: (T ++ '>' :: rest)) 0 = '<' := rfl

theorem openPrefix_charAt_name (k : Nat) (h1 : 1 ≤ k) (h2 : k ≤ T.length) :
    charAt ('<' :: (T ++ '>' :: rest)) k = charAt T (k - 1) := by
  rcases Nat.exists_eq_add_of_le h1 with ⟨m, rfl⟩
  rw [Nat.add_comm 1 m, charAt_cons_succ, charAt_append_left _ _ _ (by omega)]
  congr 1 <;> omega

theorem openPrefix_charAt_gt :
    charAt ('<' :: (T ++ '>' :: rest)) (T.length + 1) = '>' := by
  rw [show T.length + 1 = T.length + 1 from rfl]
  rw [show charAt ('<' :: (T ++ '>' :: rest)) (T.length + 1) =
    charAt (T ++ '>' :: rest) T.length from rfl]
  rw [charAt_append_right _ _ _ (le_refl _)]
  simp [charAt]

theorem openPrefix_charAt_rest (k : Nat) (h : T.length + 2 ≤ k) :
    charAt ('<' :: (T ++ '>' :: rest)) k = charAt rest (k - (T.length + 2)) := by
  rcases Nat.exists_eq_add_of_le h with ⟨m, rfl⟩
  rw [show T.length + 2 + m = (T.length + 1 + m) + 1 by omega, charAt_cons_succ,
    charAt_append_right _ _ _ (by omega)]
  rw [show T.length + 1 + m - T.length = m + 1 by omega, charAt_cons_succ]
  congr 1 <;> omega

end OpenPrefix

theorem skipBack_to (p : Char → Bool) (t : List Char) :
    ∀ (b a : Nat), a ≤ b → (∀ k, a < k → k ≤ b → p (charAt t k) = true) →
      p (charAt t a) = false → skipBack p t b = some a := by
  intro b
  induction b with
  | zero =>
    intro a h1 _ h3
    have : a = 0 := by omega
    subst this
    simp [skipBack, h3]
  | succ n ih =>
    intro a h1 h2 h3
    by_cases hab : a = n + 1
    · subst hab
      simp [skipBack, h3]
    · have hk : p (charAt t (n + 1)) = true := h2 (n + 1) (by omega) (le_refl _)
      simp only [skipBack, hk, if_true]
      exact ih a (by omega) (fun k hk1 hk2 => h2 k hk1 (by omega)) h3

section OpenScan

variable (T rest : List Char)

theorem openPrefix_isLikelyTagStart0 (hT : T ≠ [])
    (hA : T.all Char.isAlpha = true) :
    isLikelyTagStart ('<' :: (T ++ '>' :: rest)) 0 = true := by
  have hTlen : 0 < T.length := List.length_pos.mpr hT
  have hc1 : charAt ('<' :: (T ++ '>' :: rest)) 1 = charAt T 0 :=
    openPrefix_charAt_name T rest 1 (le_refl 1) hTlen
  have ha : (charAt T 0).isAlpha = true := all_charAt T _ hA 0 hTlen
  unfold isLikelyTagStart
  rw [if_neg (by rw [openPrefix_length]; omega)]
  dsimp only
  rw [hc1, ha]
  simp

theorem openPrefix_scan_one (hT : T ≠ []) (hA : T.all Char.isAlpha = true) :
    scanAcc ('<' :: (T ++ '>' :: rest)) 1 = (tagState, 0) := by
  have hTlen : 0 < T.length := List.length_pos.mpr hT
  have hc1 : charAt ('<' :: (T ++ '>' :: rest)) 1 = charAt T 0 :=
    openPrefix_charAt_name T rest 1 (le_refl 1) hTlen
  have ha : (charAt T 0).isAlpha = true := all_charAt T _ hA 0 hTlen
  rw [show (1 : Nat) = 0 + 1 from rfl, scanAcc_succ, scanAcc_zero]
  show scanPos ('<' :: (T ++ '>' :: rest)) (initScan, 0) 0 = (tagState, 0)
  unfold scanPos
  dsimp only
  have hstep : jsxStep ('<' :: (T ++ '>' :: rest)) 0 initScan = (tagState, 1) := by
    unfold jsxStep
    dsimp only
    rw [openPrefix_charAt_zero]
    rw [stringStep_none _ _ _ rfl rfl (by decide) (by decide),
      templateStep_none _ _ _ rfl (by decide),
      braceTrack_id _ _ (by decide) (by decide)]
    rw [if_neg (by decide)]
    unfold tagStep
    rw [openPrefix_isLikelyTagStart0 T rest hT hA]
    rw [hc1]
    rw [alpha_beq_false _ '/' ha (by decide), alpha_beq_false _ '>' ha (by decide)]
    simp [tagState]
  rw [hstep]
  rfl

theorem openPrefix_scan_tag (hT : T ≠ []) (hA : T.all Char.isAlpha = true) :
    ∀ o, 1 ≤ o → o ≤ T.length + 1 →
      scanAcc ('<' :: (T ++ '>' :: rest)) o = (tagState, 0) := by
  intro o h1 h2
  have hid : ∀ i, 1 ≤ i → i < o →
      scanPos ('<' :: (T ++ '>' :: rest)) (scanAcc ('<' :: (T ++ '>' :: rest)) 1) i =
        scanAcc ('<' :: (T ++ '>' :: rest)) 1 := by
    intro i hi1 hi2
    rw [openPrefix_scan_one T rest hT hA]
    refine scanPos_of_step_one _ _ _ (jsxStep_inert _ _ _ ?_ rfl rfl)
    rw [openPrefix_charAt_name T rest i hi1 (by omega)]
    exact inertChar_of_alpha _ (all_charAt T _ hA (i - 1) (by omega))
  rw [scanAcc_eq_of_id _ 1 o h1 hid, openPrefix_scan_one T rest hT hA]

theorem openPrefix_scan_content (hT : T ≠ []) (hA : T.all Char.isAlpha = true) :
    scanAcc ('<' :: (T ++ '>' :: rest)) (T.length + 2) = (contentState T.length, 0) := by
  have hTlen : 0 < T.length := List.length_pos.mpr hT
  rw [show T.length + 2 = (T.length + 1) + 1 from rfl, scanAcc_succ,
    openPrefix_scan_tag T rest hT hA (T.length + 1) (by omega) (le_refl _)]
  have hprev : charAt ('<' :: (T ++ '>' :: rest)) T.length = charAt T (T.length - 1) :=
    openPrefix_charAt_name T rest T.length hTlen (le_refl _)
  have haprev : (charAt T (T.length - 1)).isAlpha = true :=
    all_charAt T _ hA (T.length - 1) (by omega)
  have hstep : jsxStep ('<' :: (T ++ '>' :: rest)) (T.length + 1) tagState =
      (contentState T.length, 1) := by
    unfold jsxStep
    dsimp only
    rw [openPrefix_charAt_gt]
    rw [stringStep_none _ _ _ rfl rfl (by decide) (by decide),
      templateStep_none _ _ _ rfl (by decide),
      braceTrack_id _ _ (by decide) (by decide)]
    dsimp only
    rw [if_neg (by decide)]
    have hprevred : (if 0 < T.length + 1 then
        charAt ('<' :: (T ++ '>' :: rest)) (T.length + 1 - 1) else nul) =
        charAt T (T.length - 1) := by
      rw [if_pos (by omega), show T.length + 1 - 1 = T.length from rfl]
      exact hprev
    rw [hprevred]
    unfold tagStep
    rw [show (('>' : Char) == '<') = false from by decide]
    simp only [Bool.false_and, Bool.false_eq_true, if_false]
    rw [show ((('>' : Char) == '>') && tagState.inJsxTag) = true from by decide]
    simp only [if_true]
    rw [alpha_beq_false _ '/' haprev (by decide)]
    simp only [Bool.false_eq_true, if_false]
    unfold closingCheck
    dsimp only
    rw [if_neg (by omega)]
    rw [show T.length + 1 - 1 = T.length from rfl]
    rw [skipBack_to isTagNameChar _ T.length 0 (by omega)
      (fun k hk1 hk2 => by
        rw [openPrefix_charAt_name T rest k hk1 hk2]
        exact tagNameChar_of_alpha _ (all_charAt T _ hA (k - 1) (by omega)))
      (by rw [openPrefix_charAt_zero]; decide)]
    dsimp only
    rw [show skipBack isJsSpace ('<' :: (T ++ '>' :: rest)) 0 = some 0 by
      unfold skipBack
      rw [openPrefix_charAt_zero]
      decide]
    dsimp only
    rw [openPrefix_charAt_zero]
    rw [show (('<' : Char) == '/') = false from by decide]
    simp only [Bool.false_and, Bool.false_eq_true, if_false]
    rfl
  rw [scanPos, hstep]
  rfl

end OpenScan

/-!  ## Tree walk evaluation lemmas  -/

theorem findDeep_succ (f o : Nat) (k : NKind) (fs st en : Nat) (cs : List TsNode) :
    findDeepestChainF (f + 1) o (.node k fs st en cs) =
      if o < fs ∨ en ≤ o then none
      else
        match cs.findSome? (fun c => findDeepestChainF f o c) with
        | some chain => some (chain ++ [TsNode.node k fs st en cs])
        | none => some [TsNode.node k fs st en cs] := rfl

theorem findDeep_out (f o : Nat) (k : NKind) (fs st en : Nat) (cs : List TsNode)
    (h : o < fs ∨ en ≤ o) : findDeepestChainF f o (.node k fs st en cs) = none := by
  cases f with
  | zero => rfl
  | succ n => rw [findDeep_succ, if_pos h]

theorem findDeep_leaf (f o : Nat) (k : NKind) (fs st en : Nat)
    (h : fs ≤ o ∧ o < en) :
    findDeepestChainF (f + 1) o (.node k fs st en []) =
      some [.node k fs st en []] := by
  rw [findDeep_succ, if_neg (by omega)]
  rfl

theorem findSomeCons_none {α β : Type} (f : α → Option β) (a : α) (l : List α)
    (h : f a = none) : List.findSome? f (a :: l) = List.findSome? f l := by
  simp [List.findSome?_cons, h]

theorem findSomeCons_some {α β : Type} (f : α → Option β) (a : α) (l : List α)
    (b : β) (h : f a = some b) : List.findSome? f (a :: l) = some b := by
  simp [List.findSome?_cons, h]

theorem attrChain_nil (t : List Char) (o : Nat) :
    isInsideJsxAttrChain t [] o = isInsideTagAttributes t o := rfl

theorem attrChain_skip (t : List Char) (o : Nat) (n : TsNode) (rest : List TsNode)
    (h : ¬(n.kind = NKind.jsxOpeningElement ∨ n.kind = NKind.jsxSelfClosingElement)) :
    isInsideJsxAttrChain t (n :: rest) o = isInsideJsxAttrChain t rest o := by
  conv_lhs => unfold isInsideJsxAttrChain
  rw [if_neg h]

theorem textChain_skip (o : Nat) (n : TsNode) (rest : List TsNode)
    (h1 : ¬(n.kind = NKind.jsxText))
    (h2 : ¬(n.kind = NKind.jsxOpeningElement ∨ n.kind = NKind.jsxSelfClosingElement ∨
            n.kind = NKind.jsxOpeningFragment))
    (h3 : ¬(n.kind = NKind.jsxClosingElement ∨ n.kind = NKind.jsxClosingFragment)) :
    isInsideJsxTextChain (n :: rest) o = isInsideJsxTextChain rest o := by
  conv_lhs => unfold isInsideJsxTextChain
  rw [if_neg h1, if_neg (fun h => h2 h.1), if_neg (fun h => h3 h.1)]

theorem textChain_found (o : Nat) (n : TsNode) (rest : List TsNode)
    (h : n.kind = NKind.jsxText) : isInsideJsxTextChain (n :: rest) o = true := by
  unfold isInsideJsxTextChain
  rw [if_pos h]

theorem exprChain_no (chain : List TsNode) (o : Nat)
    (h : ∀ n ∈ chain, (n.kind == NKind.jsxExpression) = false) :
    isInsideJsxExprChain chain o = false := by
  unfold isInsideJsxExprChain
  rw [List.any_eq_false]
  intro n hn
  rw [h n hn]
  simp

/-!  ## Ancestor chains in the modelled element tree  -/

theorem elemTree_chain_content (tl cl o : Nat) (h1 : tl + 2 ≤ o) (h2 : o < tl + 2 + cl) :
    findDeepestChainF treeFuel o (elementTree tl cl) =
      some [elemTextNode tl cl, elemNode tl cl, elementTree tl cl] := by
  have hElem : findDeepestChainF 11 o (elemNode tl cl) =
      some [elemTextNode tl cl, elemNode tl cl] := by
    have hOp : findDeepestChainF 10 o (elemOpening tl) = none := by
      unfold elemOpening
      exact findDeep_out _ _ _ _ _ _ _ (by omega)
    have hTx : findDeepestChainF 10 o (elemTextNode tl cl) =
        some [elemTextNode tl cl] := by
      unfold elemTextNode
      exact findDeep_leaf 9 o _ _ _ _ ⟨by omega, by omega⟩
    rw [show (11 : Nat) = 10 + 1 from rfl]
    unfold elemNode
    rw [findDeep_succ, if_neg (by omega)]
    rw [findSomeCons_none _ _ _ hOp, findSomeCons_some _ _ _ _ hTx]
    rfl
  rw [show treeFuel = 11 + 1 from rfl]
  unfold elementTree
  rw [findDeep_succ, if_neg (by omega)]
  rw [findSomeCons_some _ _ _ _ hElem]
  rfl

theorem elemTree_chain_close (tl cl : Nat) :
    findDeepestChainF treeFuel (tl + 2 + cl) (elementTree tl cl) =
      some [.node .other (tl + 2 + cl) (tl + 2 + cl) (tl + 4 + cl) [],
            elemClosing tl cl, elemNode tl cl, elementTree tl cl] := by
  have hCl : findDeepestChainF 10 (tl + 2 + cl) (elemClosing tl cl) =
      some [.node .other (tl + 2 + cl) (tl + 2 + cl) (tl + 4 + cl) [],
            elemClosing tl cl] := by
    have hTok : findDeepestChainF 9 (tl + 2 + cl)
        (TsNode.node .other (tl + 2 + cl) (tl + 2 + cl) (tl + 4 + cl) []) =
        some [TsNode.node .other (tl + 2 + cl) (tl + 2 + cl) (tl + 4 + cl) []] :=
      findDeep_leaf 8 _ _ _ _ _ ⟨by omega, by omega⟩
    rw [show (10 : Nat) = 9 + 1 from rfl]
    unfold elemClosing
    rw [findDeep_succ, if_neg (by omega)]
    rw [findSomeCons_some _ _ _ _ hTok]
    rfl
  have hElem : findDeepestChainF 11 (tl + 2 + cl) (elemNode tl cl) =
      some [.node .other (tl + 2 + cl) (tl + 2 + cl) (tl + 4 + cl) [],
            elemClosing tl cl, elemNode tl cl] := by
    have hOp : findDeepestChainF 10 (tl + 2 + cl) (elemOpening tl) = none := by
      unfold elemOpening
      exact findDeep_out _ _ _ _ _ _ _ (by omega)
    have hTx : findDeepestChainF 10 (tl + 2 + cl) (elemTextNode tl cl) = none := by
      unfold elemTextNode
      exact findDeep_out _ _ _ _ _ _ _ (by omega)
    rw [show (11 : Nat) = 10 + 1 from rfl]
    unfold elemNode
    rw [findDeep_succ, if_neg (by omega)]
    rw [findSomeCons_none _ _ _ hOp, findSomeCons_none _ _ _ hTx,
      findSomeCons_some _ _ _ _ hCl]
    rfl
  rw [show treeFuel = 11 + 1 from rfl]
  unfold elementTree
  rw [findDeep_succ, if_neg (by omega)]
  rw [findSomeCons_some _ _ _ _ hElem]
  rfl

theorem elemOpening_chain_zero (tl cl : Nat) :
    findDeepestChainF treeFuel 0 (elementTree tl cl) =
      some [.node .other 0 0 1 [], elemOpening tl, elemNode tl cl, elementTree tl cl] := by
  have hOp : findDeepestChainF 10 0 (elemOpening tl) =
      some [.node .other 0 0 1 [], elemOpening tl] := by
    have hTok : findDeepestChainF 9 0 (TsNode.node .other 0 0 1 []) =
        some [TsNode.node .other 0 0 1 []] :=
      findDeep_leaf 8 _ _ _ _ _ ⟨by omega, by omega⟩
    rw [show (10 : Nat) = 9 + 1 from rfl]
    unfold elemOpening
    rw [findDeep_succ, if_neg (by omega)]
    rw [findSomeCons_some _ _ _ _ hTok]
    rfl
  have hElem : findDeepestChainF 11 0 (elemNode tl cl) =
      some [.node .other 0 0 1 [], elemOpening tl, elemNode tl cl] := by
    rw [show (11 : Nat) = 10 + 1 from rfl]
    unfold elemNode
    rw [findDeep_succ, if_neg (by omega)]
    rw [findSomeCons_some _ _ _ _ hOp]
    rfl
  rw [show treeFuel = 11 + 1 from rfl]
  unfold elementTree
  rw [findDeep_succ, if_neg (by omega)]
  rw [findSomeCons_some _ _ _ _ hElem]
  rfl

theorem elemOpening_chain_name (tl cl o : Nat) (h1 : 1 ≤ o) (h2 : o ≤ tl) :
    findDeepestChainF treeFuel o (elementTree tl cl) =
      some [.node .other 1 1 (tl + 1) [], elemOpening tl, elemNode tl cl,
            elementTree tl cl] := by
  have hOp : findDeepestChainF 10 o (elemOpening tl) =
      some [.node .other 1 1 (tl + 1) [], elemOpening tl] := by
    have hT0 : findDeepestChainF 9 o (TsNode.node .other 0 0 1 []) = none :=
      findDeep_out _ _ _ _ _ _ _ (by omega)
    have hTok : findDeepestChainF 9 o (TsNode.node .other 1 1 (tl + 1) []) =
        some [TsNode.node .other 1 1 (tl + 1) []] :=
      findDeep_leaf 8 _ _ _ _ _ ⟨by omega, by omega⟩
    rw [show (10 : Nat) = 9 + 1 from rfl]
    unfold elemOpening
    rw [findDeep_succ, if_neg (by omega)]
    rw [findSomeCons_none _ _ _ hT0, findSomeCons_some _ _ _ _ hTok]
    rfl
  have hElem : findDeepestChainF 11 o (elemNode tl cl) =
      some [.node .other 1 1 (tl + 1) [], elemOpening tl, elemNode tl cl] := by
    rw [show (11 : Nat) = 10 + 1 from rfl]
    unfold elemNode
    rw [findDeep_succ, if_neg (by omega)]
    rw [findSomeCons_some _ _ _ _ hOp]
    rfl
  rw [show treeFuel = 11 + 1 from rfl]
  unfold elementTree
  rw [findDeep_succ, if_neg (by omega)]
  rw [findSomeCons_some _ _ _ _ hElem]
  rfl

theorem elemOpening_chain_gt (tl cl : Nat) :
    findDeepestChainF treeFuel (tl + 1) (elementTree tl cl) =
      some [.node .other (tl + 1) (tl + 1) (tl + 2) [], elemOpening tl,
            elemNode tl cl, elementTree tl cl] := by
  have hOp : findDeepestChainF 10 (tl + 1) (elemOpening tl) =
      some [.node .other (tl + 1) (tl + 1) (tl + 2) [], elemOpening tl] := by
    have hT0 : findDeepestChainF 9 (tl + 1) (TsNode.node .other 0 0 1 []) = none :=
      findDeep_out _ _ _ _ _ _ _ (by omega)
    have hT1 : findDeepestChainF 9 (tl + 1) (TsNode.node .other 1 1 (tl + 1) []) =
        none :=
      findDeep_out _ _ _ _ _ _ _ (by omega)
    have hT2 : findDeepestChainF 9 (tl + 1)
        (TsNode.node .jsxAttributes (tl + 1) (tl + 1) (tl + 1) []) = none :=
      findDeep_out _ _ _ _ _ _ _ (by omega)
    have hTok : findDeepestChainF 9 (tl + 1)
        (TsNode.node .other (tl + 1) (tl + 1) (tl + 2) []) =
        some [TsNode.node .other (tl + 1) (tl + 1) (tl + 2) []] :=
      findDeep_leaf 8 _ _ _ _ _ ⟨by omega, by omega⟩
    rw [show (10 : Nat) = 9 + 1 from rfl]
    unfold elemOpening
    rw [findDeep_succ, if_neg (by omega)]
    rw [findSomeCons_none _ _ _ hT0, findSomeCons_none _ _ _ hT1,
      findSomeCons_none _ _ _ hT2, findSomeCons_some _ _ _ _ hTok]
    rfl
  have hElem : findDeepestChainF 11 (tl + 1) (elemNode tl cl) =
      some [.node .other (tl + 1) (tl + 1) (tl + 2) [], elemOpening tl,
            elemNode tl cl] := by
    rw [show (11 : Nat) = 10 + 1 from rfl]
    unfold elemNode
    rw [findDeep_succ, if_neg (by omega)]
    rw [findSomeCons_some _ _ _ _ hOp]
    rfl
  rw [show treeFuel = 11 + 1 from rfl]
  unfold elementTree
  rw [findDeep_succ, if_neg (by omega)]
  rw [findSomeCons_some _ _ _ _ hElem]
  rfl

theorem gapNodeHit_other (n : TsNode) (o : Nat)
    (h1 : ¬(n.kind = NKind.jsxElement)) (h2 : ¬(n.kind = NKind.jsxFragment)) :
    gapNodeHit n o = false := by
  unfold gapNodeHit
  cases hk : n.kind <;> simp_all

theorem gapChain_skip (n : TsNode) (rest : List TsNode) (o : Nat)
    (h : gapNodeHit n o = false) :
    isInsideJsxGapChain (n :: rest) o = isInsideJsxGapChain rest o := by
  unfold isInsideJsxGapChain
  rw [List.any_cons, h]
  rfl

theorem gapChain_nil (o : Nat) : isInsideJsxGapChain [] o = false := rfl

theorem gapChain_hit (n : TsNode) (rest : List TsNode) (o : Nat)
    (h : gapNodeHit n o = true) : isInsideJsxGapChain (n :: rest) o = true := by
  unfold isInsideJsxGapChain
  rw [List.any_cons, h]
  rfl

theorem exprChain_yes (chain : List TsNode) (o : Nat) (n : TsNode)
    (hn : n ∈ chain) (hk : (n.kind == NKind.jsxExpression) = true)
    (hs : n.startPos < o ∧ o < n.endPos) : isInsideJsxExprChain chain o = true := by
  unfold isInsideJsxExprChain
  rw [List.any_eq_true]
  exact ⟨n, hn, by rw [hk]; simp [hs]⟩

theorem textChain_skip_span (o : Nat) (n : TsNode) (rest : List TsNode)
    (h1 : ¬(n.kind = NKind.jsxText)) (h2s : ¬(n.startPos < o ∧ o < n.endPos)) :
    isInsideJsxTextChain (n :: rest) o = isInsideJsxTextChain rest o := by
  conv_lhs => unfold isInsideJsxTextChain
  rw [if_neg h1, if_neg (fun h => h2s h.2), if_neg (fun h => h2s h.2)]

theorem gapNodeHit_elemNode (tl cl o : Nat) :
    gapNodeHit (elemNode tl cl) o = decide (tl + 2 ≤ o ∧ o ≤ tl + 2 + cl) := rfl

theorem elemTree_containsJsx (tl cl : Nat) :
    containsJsxF treeFuel (elementTree tl cl) = true := rfl

theorem fragTree_containsJsx (n : Nat) :
    containsJsxF treeFuel (fragmentTree n) = true := rfl

theorem exprTree_containsJsx (tl el : Nat) :
    containsJsxF treeFuel (exprElementTree tl el) = true := rfl

/-!  ## Character layout of `elementText`  -/

theorem ne_of_pred (c d : Char) (p : Char → Bool) (hc : p c = true)
    (hd : p d = false) : c ≠ d := by
  intro h
  rw [h, hd] at hc
  cases hc

section ElementTextFacts

variable (T C : List Char)

theorem elementText_def :
    elementText T C = '<' :: (T ++ '>' :: (C ++ '<' :: '/' :: (T ++ ['>']))) := rfl

theorem elementText_length :
    (elementText T C).length = 2 * T.length + C.length + 5 := by
  rw [elementText_def, openPrefix_length]
  simp
  omega

theorem elementText_charAt_zero : charAt (elementText T C) 0 = '<' := rfl

theorem elementText_charAt_name (k : Nat) (h1 : 1 ≤ k) (h2 : k ≤ T.length) :
    charAt (elementText T C) k = charAt T (k - 1) :=
  openPrefix_charAt_name T _ k h1 h2

theorem elementText_charAt_gt : charAt (elementText T C) (T.length + 1) = '>' :=
  openPrefix_charAt_gt T _

theorem elementText_charAt_content (k : Nat) (h1 : T.length + 2 ≤ k)
    (h2 : k < T.length + 2 + C.length) :
    charAt (elementText T C) k = charAt C (k - (T.length + 2)) := by
  rw [elementText_def, openPrefix_charAt_rest T _ k h1,
    charAt_append_left _ _ _ (by omega)]

theorem elementText_charAt_lt2 :
    charAt (elementText T C) (T.length + 2 + C.length) = '<' := by
  rw [elementText_def, openPrefix_charAt_rest T _ _ (by omega),
    show T.length + 2 + C.length - (T.length + 2) = C.length by omega,
    charAt_append_right _ _ _ (le_refl _), Nat.sub_self]
  rfl

theorem elementText_charAt_slash :
    charAt (elementText T C) (T.length + 3 + C.length) = '/' := by
  rw [elementText_def, openPrefix_charAt_rest T _ _ (by omega),
    show T.length + 3 + C.length - (T.length + 2) = C.length + 1 by omega,
    charAt_append_right _ _ _ (by omega),
    show C.length + 1 - C.length = 1 by omega]
  rfl

theorem elementText_charAt_name2 (k : Nat) (h1 : T.length + 4 + C.length ≤ k)
    (h2 : k < 2 * T.length + C.length + 4) :
    charAt (elementText T C) k = charAt T (k - (T.length + 4 + C.length)) := by
  rw [elementText_def, openPrefix_charAt_rest T _ _ (by omega),
    charAt_append_right _ _ _ (by omega),
    show k - (T.length + 2) - C.length = (k - (T.length + 4 + C.length)) + 1 + 1 by omega,
    charAt_cons_succ, charAt_cons_succ, charAt_append_left _ _ _ (by omega)]

end ElementTextFacts

section ElementTextMore

variable (T C : List Char)

theorem elementText_charAt_gt2 :
    charAt (elementText T C) (2 * T.length + C.length + 4) = '>' := by
  rw [elementText_def, openPrefix_charAt_rest T _ _ (by omega),
    show 2 * T.length + C.length + 4 - (T.length + 2) = C.length + (T.length + 2) by omega,
    charAt_append_right _ _ _ (by omega),
    show C.length + (T.length + 2) - C.length = (T.length + 1) + 1 by omega,
    charAt_cons_succ,
    show T.length + 1 = T.length + 1 from rfl]
  rw [show charAt ('/' :: (T ++ ['>'])) (T.length + 1) = charAt (T ++ ['>']) T.length
    from rfl]
  rw [charAt_append_right _ _ _ (le_refl _), Nat.sub_self]
  rfl

theorem elementText_mid_ne_lt (hA : T.all Char.isAlpha = true)
    (hC : C.all isTextChar = true) :
    ∀ q, 1 ≤ q → q < T.length + 2 + C.length → charAt (elementText T C) q ≠ '<' := by
  intro q h1 h2
  by_cases ha : q ≤ T.length
  · rw [elementText_charAt_name T C q h1 ha]
    exact ne_of_pred _ _ Char.isAlpha (all_charAt T _ hA _ (by omega)) (by decide)
  · by_cases hb : q = T.length + 1
    · rw [hb, elementText_charAt_gt]
      decide
    · rw [elementText_charAt_content T C q (by omega) h2]
      exact ne_of_pred _ _ isTextChar (all_charAt C _ hC _ (by omega)) (by decide)

theorem elementText_content_notChar (hC : C.all isTextChar = true) (q : Nat)
    (h1 : T.length + 2 ≤ q) (h2 : q < T.length + 2 + C.length) (d : Char)
    (hd : isTextChar d = false) : charAt (elementText T C) q ≠ d := by
  rw [elementText_charAt_content T C q h1 h2]
  exact ne_of_pred _ _ isTextChar (all_charAt C _ hC _ (by omega)) hd

theorem elementText_name_ne (hA : T.all Char.isAlpha = true) (q : Nat)
    (h1 : 1 ≤ q) (h2 : q ≤ T.length) (d : Char) (hd : d.isAlpha = false) :
    charAt (elementText T C) q ≠ d := by
  rw [elementText_charAt_name T C q h1 h2]
  exact ne_of_pred _ _ Char.isAlpha (all_charAt T _ hA _ (by omega)) hd

theorem elementText_name2_ne (hA : T.all Char.isAlpha = true) (q : Nat)
    (h1 : T.length + 4 + C.length ≤ q) (h2 : q < 2 * T.length + C.length + 4)
    (d : Char) (hd : d.isAlpha = false) : charAt (elementText T C) q ≠ d := by
  rw [elementText_charAt_name2 T C q h1 h2]
  exact ne_of_pred _ _ Char.isAlpha (all_charAt T _ hA _ (by omega)) hd

theorem elementText_tagAttrs_content (hT : T ≠ []) (hA : T.all Char.isAlpha = true)
    (hC : C.all isTextChar = true) (o : Nat) (ho1 : T.length + 2 ≤ o)
    (ho2 : o < T.length + 2 + C.length) :
    isInsideTagAttributes (elementText T C) o = false := by
  have hlen := elementText_length T C
  have hlt : lastIndexOfC (elementText T C) '<' (o : Int) = ((0 : Nat) : Int) :=
    lastIndexOfC_nat_eq _ _ o 0 (by omega) (elementText_charAt_zero T C) (by omega)
      (fun q hq1 hq2 => elementText_mid_ne_lt T C hA hC q (by omega) (by omega))
  have hgt : lastIndexOfC (elementText T C) '>' (o : Int) =
      ((T.length + 1 : Nat) : Int) :=
    lastIndexOfC_nat_eq _ _ o (T.length + 1) (by omega)
      (elementText_charAt_gt T C) (by omega)
      (fun q hq1 hq2 =>
        elementText_content_notChar T C hC q (by omega) (by omega) '>' (by decide))
  unfold isInsideTagAttributes
  rw [hlt, hgt]
  rw [if_neg (by decide)]
  rw [if_pos (by simp <;> omega)]

theorem elementText_tagAttrs_ce (hT : T ≠ []) (hA : T.all Char.isAlpha = true)
    (hC : C.all isTextChar = true) :
    isInsideTagAttributes (elementText T C) (T.length + 2 + C.length) = false := by
  have hlen := elementText_length T C
  have hlt : lastIndexOfC (elementText T C) '<'
      ((T.length + 2 + C.length : Nat) : Int) = ((T.length + 2 + C.length : Nat) : Int) :=
    lastIndexOfC_nat_eq _ _ _ _ (by omega) (elementText_charAt_lt2 T C) (le_refl _)
      (fun q hq1 hq2 => by omega)
  have hgt : lastIndexOfC (elementText T C) '>'
      ((T.length + 2 + C.length : Nat) : Int) = ((T.length + 1 : Nat) : Int) :=
    lastIndexOfC_nat_eq _ _ _ _ (by omega) (elementText_charAt_gt T C) (by omega)
      (fun q hq1 hq2 => by
        by_cases hq : q = T.length + 2 + C.length
        · rw [hq, elementText_charAt_lt2]
          decide
        · exact elementText_content_notChar T C hC q (by omega) (by omega) '>'
            (by decide))
  have hnext : indexOfC (elementText T C) '>' (T.length + 2 + C.length) =
      ((2 * T.length + C.length + 4 : Nat) : Int) :=
    indexOfC_eq _ _ _ _ (by omega) (elementText_charAt_gt2 T C) (by omega)
      (fun q hq1 hq2 => by
        by_cases ha : q = T.length + 2 + C.length
        · rw [ha, elementText_charAt_lt2]
          decide
        · by_cases hb : q = T.length + 3 + C.length
          · rw [hb, elementText_charAt_slash]
            decide
          · exact elementText_name2_ne T C hA q (by omega) (by omega) '>' (by decide))
  unfold isInsideTagAttributes
  rw [hlt, hgt, hnext]
  rw [if_neg (by omega)]
  rw [if_neg (by simp; omega)]
  rw [if_neg (by omega)]
  rw [show (((T.length + 2 + C.length : Nat) : Int)).toNat = T.length + 2 + C.length
    from Int.toNat_natCast _]
  rw [show T.length + 2 + C.length + 1 = T.length + 3 + C.length by omega,
    elementText_charAt_slash]
  rw [if_pos (by decide)]

theorem elementText_tagAttrs_zero (hT : T ≠ []) (hA : T.all Char.isAlpha = true) :
    isInsideTagAttributes (elementText T C) 0 = false := by
  have hlen := elementText_length T C
  have hTlen : 0 < T.length := List.length_pos.mpr hT
  have hlt : lastIndexOfC (elementText T C) '<' ((0 : Nat) : Int) = ((0 : Nat) : Int) :=
    lastIndexOfC_nat_eq _ _ 0 0 (by omega) (elementText_charAt_zero T C) (le_refl _)
      (fun q hq1 hq2 => by omega)
  have hgt : lastIndexOfC (elementText T C) '>' ((0 : Nat) : Int) = -1 :=
    lastIndexOfC_nat_neg _ _ 0 (by omega)
      (fun q hq => by
        have : q = 0 := by omega
        rw [this, elementText_charAt_zero]
        decide)
  have hnext : indexOfC (elementText T C) '>' 0 = ((T.length + 1 : Nat) : Int) :=
    indexOfC_eq _ _ 0 _ (by omega) (elementText_charAt_gt T C) (by omega)
      (fun q hq1 hq2 => by
        by_cases ha : q = 0
        · rw [ha, elementText_charAt_zero]
          decide
        · exact elementText_name_ne T C hA q (by omega) (by omega) '>' (by decide))
  unfold isInsideTagAttributes
  rw [hlt, hgt, hnext]
  rw [if_neg (by omega)]
  rw [if_neg (by simp)]
  rw [if_neg (by omega)]
  rw [show (((0 : Nat) : Int)).toNat + 1 = 1 by simp,
    elementText_charAt_name T C 1 (le_refl _) hTlen]
  rw [beq_false_of_pred _ _ Char.isAlpha (all_charAt T _ hA 0 hTlen) (by decide)]
  simp only [Bool.false_eq_true, if_false]
  simp

end ElementTextMore

section ElemClassify

variable (T C : List Char)

theorem elemTree_classify_content (hT : T ≠ []) (hA : T.all Char.isAlpha = true)
    (hC : C.all isTextChar = true) (o : Nat) (h1 : T.length + 2 ≤ o)
    (h2 : o < T.length + 2 + C.length) :
    classifyTreeCore (elementText T C) (elementTree T.length C.length) o = true := by
  unfold classifyTreeCore
  rw [elemTree_containsJsx]
  simp only [Bool.not_true, Bool.false_eq_true, if_false]
  rw [elemTree_chain_content T.length C.length o h1 h2]
  dsimp only
  have hattr : isInsideJsxAttrChain (elementText T C)
      [elemTextNode T.length C.length, elemNode T.length C.length,
       elementTree T.length C.length] o = false := by
    rw [attrChain_skip _ _ _ _ (by simp [elemTextNode, TsNode.kind]),
      attrChain_skip _ _ _ _ (by simp [elemNode, TsNode.kind]),
      attrChain_skip _ _ _ _ (by simp [elementTree, TsNode.kind]),
      attrChain_nil]
    exact elementText_tagAttrs_content T C hT hA hC o h1 h2
  rw [hattr]
  simp only [Bool.false_eq_true, if_false]
  have hexpr : isInsideJsxExprChain
      [elemTextNode T.length C.length, elemNode T.length C.length,
       elementTree T.length C.length] o = false := by
    refine exprChain_no _ _ ?_
    intro n hn
    simp at hn
    rcases hn with rfl | rfl | rfl <;> rfl
  rw [hexpr]
  simp only [Bool.false_eq_true, if_false]
  rw [textChain_found _ _ _ (by rfl)]
  simp

theorem elemTree_classify_ce (hT : T ≠ []) (hA : T.all Char.isAlpha = true)
    (hC : C.all isTextChar = true) :
    classifyTreeCore (elementText T C) (elementTree T.length C.length)
      (T.length + 2 + C.length) = true := by
  unfold classifyTreeCore
  rw [elemTree_containsJsx]
  simp only [Bool.not_true, Bool.false_eq_true, if_false]
  rw [elemTree_chain_close T.length C.length]
  dsimp only
  have hattr : isInsideJsxAttrChain (elementText T C)
      [.node .other (T.length + 2 + C.length) (T.length + 2 + C.length)
        (T.length + 4 + C.length) [],
       elemClosing T.length C.length, elemNode T.length C.length,
       elementTree T.length C.length] (T.length + 2 + C.length) = false := by
    rw [attrChain_skip _ _ _ _ (by simp [TsNode.kind]),
      attrChain_skip _ _ _ _ (by simp [elemClosing, TsNode.kind]),
      attrChain_skip _ _ _ _ (by simp [elemNode, TsNode.kind]),
      attrChain_skip _ _ _ _ (by simp [elementTree, TsNode.kind]),
      attrChain_nil]
    exact elementText_tagAttrs_ce T C hT hA hC
  rw [hattr]
  simp only [Bool.false_eq_true, if_false]
  have hexpr : isInsideJsxExprChain
      [.node .other (T.length + 2 + C.length) (T.length + 2 + C.length)
        (T.length + 4 + C.length) [],
       elemClosing T.length C.length, elemNode T.length C.length,
       elementTree T.length C.length] (T.length + 2 + C.length) = false := by
    refine exprChain_no _ _ ?_
    intro n hn
    simp at hn
    rcases hn with rfl | rfl | rfl | rfl <;> rfl
  rw [hexpr]
  simp only [Bool.false_eq_true, if_false]
  have htext : isInsideJsxTextChain
      [.node .other (T.length + 2 + C.length) (T.length + 2 + C.length)
        (T.length + 4 + C.length) [],
       elemClosing T.length C.length, elemNode T.length C.length,
       elementTree T.length C.length] (T.length + 2 + C.length) = false := by
    rw [textChain_skip _ _ _ (by simp [TsNode.kind]) (by simp [TsNode.kind])
        (by simp [TsNode.kind]),
      textChain_skip_span _ _ _ (by simp [elemClosing, TsNode.kind])
        (by simp [elemClosing, TsNode.startPos]),
      textChain_skip _ _ _ (by simp [elemNode, TsNode.kind])
        (by simp [elemNode, TsNode.kind]) (by simp [elemNode, TsNode.kind]),
      textChain_skip _ _ _ (by simp [elementTree, TsNode.kind])
        (by simp [elementTree, TsNode.kind]) (by simp [elementTree, TsNode.kind])]
    rfl
  rw [htext]
  simp only [Bool.false_eq_true, if_false]
  rw [gapChain_skip _ _ _ (gapNodeHit_other _ _ (by simp [TsNode.kind])
      (by simp [TsNode.kind])),
    gapChain_skip _ _ _ (gapNodeHit_other _ _ (by simp [elemClosing, TsNode.kind])
      (by simp [elemClosing, TsNode.kind])),
    gapChain_hit _ _ _ (by rw [gapNodeHit_elemNode]; simp)]

theorem elemTree_classify_zero (hT : T ≠ []) (hA : T.all Char.isAlpha = true) :
    classifyTreeCore (elementText T C) (elementTree T.length C.length) 0 = false := by
  unfold classifyTreeCore
  rw [elemTree_containsJsx]
  simp only [Bool.not_true, Bool.false_eq_true, if_false]
  rw [elemOpening_chain_zero T.length C.length]
  dsimp only
  have hattr : isInsideJsxAttrChain (elementText T C)
      [.node .other 0 0 1 [], elemOpening T.length, elemNode T.length C.length,
       elementTree T.length C.length] 0 = false := by
    rw [attrChain_skip _ _ _ _ (by simp [TsNode.kind])]
    conv_lhs => unfold isInsideJsxAttrChain
    rw [if_pos (show (elemOpening T.length).kind = NKind.jsxOpeningElement ∨
      (elemOpening T.length).kind = NKind.jsxSelfClosingElement from Or.inl rfl)]
    rw [show List.find? (fun c => c.kind == NKind.jsxAttributes)
      (elemOpening T.length).children =
      some (.node .jsxAttributes (T.length + 1) (T.length + 1) (T.length + 1) [])
      from rfl]
    dsimp only
    rw [if_neg (by dsimp only [TsNode.fullStart, TsNode.endPos]; omega)]
    rw [if_neg (by dsimp only [elemOpening, TsNode.startPos, TsNode.fullStart]; omega)]
    rw [attrChain_skip _ _ _ _ (by simp [elemNode, TsNode.kind]),
      attrChain_skip _ _ _ _ (by simp [elementTree, TsNode.kind]),
      attrChain_nil]
    exact elementText_tagAttrs_zero T C hT hA
  rw [hattr]
  simp only [Bool.false_eq_true, if_false]
  have hexpr : isInsideJsxExprChain
      [.node .other 0 0 1 [], elemOpening T.length, elemNode T.length C.length,
       elementTree T.length C.length] 0 = false := by
    refine exprChain_no _ _ ?_
    intro n hn
    simp at hn
    rcases hn with rfl | rfl | rfl | rfl <;> rfl
  rw [hexpr]
  simp only [Bool.false_eq_true, if_false]
  have htext : isInsideJsxTextChain
      [.node .other 0 0 1 [], elemOpening T.length, elemNode T.length C.length,
       elementTree T.length C.length] 0 = false := by
    rw [textChain_skip _ _ _ (by simp [TsNode.kind]) (by simp [TsNode.kind])
        (by simp [TsNode.kind]),
      textChain_skip_span _ _ _ (by simp [elemOpening, TsNode.kind])
        (by simp [elemOpening, TsNode.startPos]),
      textChain_skip _ _ _ (by simp [elemNode, TsNode.kind])
        (by simp [elemNode, TsNode.kind]) (by simp [elemNode, TsNode.kind]),
      textChain_skip _ _ _ (by simp [elementTree, TsNode.kind])
        (by simp [elementTree, TsNode.kind]) (by simp [elementTree, TsNode.kind])]
    rfl
  rw [htext]
  simp only [Bool.false_eq_true, if_false]
  rw [gapChain_skip _ _ _ (gapNodeHit_other _ _ (by simp [TsNode.kind])
      (by simp [TsNode.kind])),
    gapChain_skip _ _ _ (gapNodeHit_other _ _ (by simp [elemOpening, TsNode.kind])
      (by simp [elemOpening, TsNode.kind])),
    gapChain_skip _ _ _ (by rw [gapNodeHit_elemNode]; simp),
    gapChain_skip _ _ _ (gapNodeHit_other _ _ (by simp [elementTree, TsNode.kind])
      (by simp [elementTree, TsNode.kind])),
    gapChain_nil]

theorem elemTree_classify_name (o : Nat) (h1 : 1 ≤ o) (h2 : o ≤ T.length) :
    classifyTreeCore (elementText T C) (elementTree T.length C.length) o = false := by
  unfold classifyTreeCore
  rw [elemTree_containsJsx]
  simp only [Bool.not_true, Bool.false_eq_true, if_false]
  rw [elemOpening_chain_name T.length C.length o h1 h2]
  dsimp only
  have hattr : isInsideJsxAttrChain (elementText T C)
      [.node .other 1 1 (T.length + 1) [], elemOpening T.length,
       elemNode T.length C.length, elementTree T.length C.length] o = true := by
    rw [attrChain_skip _ _ _ _ (by simp [TsNode.kind])]
    conv_lhs => unfold isInsideJsxAttrChain
    rw [if_pos (show (elemOpening T.length).kind = NKind.jsxOpeningElement ∨
      (elemOpening T.length).kind = NKind.jsxSelfClosingElement from Or.inl rfl)]
    rw [show List.find? (fun c => c.kind == NKind.jsxAttributes)
      (elemOpening T.length).children =
      some (.node .jsxAttributes (T.length + 1) (T.length + 1) (T.length + 1) [])
      from rfl]
    dsimp only
    rw [if_neg (by dsimp only [TsNode.fullStart, TsNode.endPos]; omega)]
    rw [if_pos (by dsimp only [elemOpening, TsNode.startPos, TsNode.fullStart]; omega)]
  rw [hattr]
  simp

theorem elemTree_classify_gt :
    classifyTreeCore (elementText T C) (elementTree T.length C.length)
      (T.length + 1) = false := by
  unfold classifyTreeCore
  rw [elemTree_containsJsx]
  simp only [Bool.not_true, Bool.false_eq_true, if_false]
  rw [elemOpening_chain_gt T.length C.length]
  dsimp only
  have hattr : isInsideJsxAttrChain (elementText T C)
      [.node .other (T.length + 1) (T.length + 1) (T.length + 2) [],
       elemOpening T.length, elemNode T.length C.length,
       elementTree T.length C.length] (T.length + 1) = true := by
    rw [attrChain_skip _ _ _ _ (by simp [TsNode.kind])]
    conv_lhs => unfold isInsideJsxAttrChain
    rw [if_pos (show (elemOpening T.length).kind = NKind.jsxOpeningElement ∨
      (elemOpening T.length).kind = NKind.jsxSelfClosingElement from Or.inl rfl)]
    rw [show List.find? (fun c => c.kind == NKind.jsxAttributes)
      (elemOpening T.length).children =
      some (.node .jsxAttributes (T.length + 1) (T.length + 1) (T.length + 1) [])
      from rfl]
    dsimp only
    rw [if_pos (by dsimp only [TsNode.fullStart, TsNode.endPos]; omega)]
  rw [hattr]
  simp

end ElemClassify

/-!  ## Chains and classification in the expression tree  -/

theorem exprTree_chain_inner (tl el o : Nat) (h1 : tl + 3 ≤ o) (h2 : o < tl + 3 + el) :
    findDeepestChainF treeFuel o (exprElementTree tl el) =
      some [.node .other (tl + 3) (tl + 3) (tl + 3 + el) [], exprJsxExpr tl el,
            exprElemNode tl el, exprElementTree tl el] := by
  have hExpr : findDeepestChainF 10 o (exprJsxExpr tl el) =
      some [.node .other (tl + 3) (tl + 3) (tl + 3 + el) [], exprJsxExpr tl el] := by
    have hT0 : findDeepestChainF 9 o
        (TsNode.node .other (tl + 2) (tl + 2) (tl + 3) []) = none :=
      findDeep_out _ _ _ _ _ _ _ (by omega)
    have hTok : findDeepestChainF 9 o
        (TsNode.node .other (tl + 3) (tl + 3) (tl + 3 + el) []) =
        some [TsNode.node .other (tl + 3) (tl + 3) (tl + 3 + el) []] :=
      findDeep_leaf 8 _ _ _ _ _ ⟨by omega, by omega⟩
    rw [show (10 : Nat) = 9 + 1 from rfl]
    unfold exprJsxExpr
    rw [findDeep_succ, if_neg (by omega)]
    rw [findSomeCons_none _ _ _ hT0, findSomeCons_some _ _ _ _ hTok]
    rfl
  have hElem : findDeepestChainF 11 o (exprElemNode tl el) =
      some [.node .other (tl + 3) (tl + 3) (tl + 3 + el) [], exprJsxExpr tl el,
            exprElemNode tl el] := by
    have hOp : findDeepestChainF 10 o (elemOpening tl) = none := by
      unfold elemOpening
      exact findDeep_out _ _ _ _ _ _ _ (by omega)
    rw [show (11 : Nat) = 10 + 1 from rfl]
    unfold exprElemNode
    rw [findDeep_succ, if_neg (by omega)]
    rw [findSomeCons_none _ _ _ hOp, findSomeCons_some _ _ _ _ hExpr]
    rfl
  rw [show treeFuel = 11 + 1 from rfl]
  unfold exprElementTree
  rw [findDeep_succ, if_neg (by omega)]
  rw [findSomeCons_some _ _ _ _ hElem]
  rfl

theorem exprTree_chain_rbrace (tl el : Nat) :
    findDeepestChainF treeFuel (tl + 3 + el) (exprElementTree tl el) =
      some [.node .other (tl + 3 + el) (tl + 3 + el) (tl + 4 + el) [],
            exprJsxExpr tl el, exprElemNode tl el, exprElementTree tl el] := by
  have hExpr : findDeepestChainF 10 (tl + 3 + el) (exprJsxExpr tl el) =
      some [.node .other (tl + 3 + el) (tl + 3 + el) (tl + 4 + el) [],
            exprJsxExpr tl el] := by
    have hT0 : findDeepestChainF 9 (tl + 3 + el)
        (TsNode.node .other (tl + 2) (tl + 2) (tl + 3) []) = none :=
      findDeep_out _ _ _ _ _ _ _ (by omega)
    have hT1 : findDeepestChainF 9 (tl + 3 + el)
        (TsNode.node .other (tl + 3) (tl + 3) (tl + 3 + el) []) = none :=
      findDeep_out _ _ _ _ _ _ _ (by omega)
    have hTok : findDeepestChainF 9 (tl + 3 + el)
        (TsNode.node .other (tl + 3 + el) (tl + 3 + el) (tl + 4 + el) []) =
        some [TsNode.node .other (tl + 3 + el) (tl + 3 + el) (tl + 4 + el) []] :=
      findDeep_leaf 8 _ _ _ _ _ ⟨by omega, by omega⟩
    rw [show (10 : Nat) = 9 + 1 from rfl]
    unfold exprJsxExpr
    rw [findDeep_succ, if_neg (by omega)]
    rw [findSomeCons_none _ _ _ hT0, findSomeCons_none _ _ _ hT1,
      findSomeCons_some _ _ _ _ hTok]
    rfl
  have hElem : findDeepestChainF 11 (tl + 3 + el) (exprElemNode tl el) =
      some [.node .other (tl + 3 + el) (tl + 3 + el) (tl + 4 + el) [],
            exprJsxExpr tl el, exprElemNode tl el] := by
    have hOp : findDeepestChainF 10 (tl + 3 + el) (elemOpening tl) = none := by
      unfold elemOpening
      exact findDeep_out _ _ _ _ _ _ _ (by omega)
    rw [show (11 : Nat) = 10 + 1 from rfl]
    unfold exprElemNode
    rw [findDeep_succ, if_neg (by omega)]
    rw [findSomeCons_none _ _ _ hOp, findSomeCons_some _ _ _ _ hExpr]
    rfl
  rw [show treeFuel = 11 + 1 from rfl]
  unfold exprElementTree
  rw [findDeep_succ, if_neg (by omega)]
  rw [findSomeCons_some _ _ _ _ hElem]
  rfl

theorem exprTree_classify (tl el : Nat) (t : List Char) (o : Nat)
    (h1 : tl + 3 ≤ o) (h2 : o ≤ tl + 3 + el) :
    classifyTreeCore t (exprElementTree tl el) o = false := by
  unfold classifyTreeCore
  rw [exprTree_containsJsx]
  simp only [Bool.not_true, Bool.false_eq_true, if_false]
  by_cases hco : o < tl + 3 + el
  · rw [exprTree_chain_inner tl el o h1 hco]
    dsimp only
    cases hattr : isInsideJsxAttrChain t
        [.node .other (tl + 3) (tl + 3) (tl + 3 + el) [], exprJsxExpr tl el,
         exprElemNode tl el, exprElementTree tl el] o
    · simp only [Bool.false_eq_true, if_false]
      rw [exprChain_yes _ o (exprJsxExpr tl el) (by simp) (by rfl)
        ⟨by dsimp only [exprJsxExpr, TsNode.startPos]; omega,
         by dsimp only [exprJsxExpr, TsNode.endPos]; omega⟩]
      simp
    · simp
  · have ho : o = tl + 3 + el := by omega
    subst ho
    rw [exprTree_chain_rbrace tl el]
    dsimp only
    cases hattr : isInsideJsxAttrChain t
        [.node .other (tl + 3 + el) (tl + 3 + el) (tl + 4 + el) [],
         exprJsxExpr tl el, exprElemNode tl el, exprElementTree tl el] (tl + 3 + el)
    · simp only [Bool.false_eq_true, if_false]
      rw [exprChain_yes _ _ (exprJsxExpr tl el) (by simp) (by rfl)
        ⟨by dsimp only [exprJsxExpr, TsNode.startPos]; omega,
         by dsimp only [exprJsxExpr, TsNode.endPos]; omega⟩]
      simp
    · simp

/-!  ## Chains and classification in the fragment tree  -/

theorem fragTree_chain_content (n o : Nat) (h1 : 2 ≤ o) (h2 : o < 2 + n) :
    findDeepestChainF treeFuel o (fragmentTree n) =
      some [fragTextNode n, fragNode n, fragmentTree n] := by
  have hFrag : findDeepestChainF 11 o (fragNode n) =
      some [fragTextNode n, fragNode n] := by
    have hOp : findDeepestChainF 10 o fragOpening = none := by
      unfold fragOpening
      exact findDeep_out _ _ _ _ _ _ _ (by omega)
    have hTx : findDeepestChainF 10 o (fragTextNode n) = some [fragTextNode n] := by
      unfold fragTextNode
      exact findDeep_leaf 9 o _ _ _ _ ⟨by omega, by omega⟩
    rw [show (11 : Nat) = 10 + 1 from rfl]
    unfold fragNode
    rw [findDeep_succ, if_neg (by omega)]
    rw [findSomeCons_none _ _ _ hOp, findSomeCons_some _ _ _ _ hTx]
    rfl
  rw [show treeFuel = 11 + 1 from rfl]
  unfold fragmentTree
  rw [findDeep_succ, if_neg (by omega)]
  rw [findSomeCons_some _ _ _ _ hFrag]
  rfl

theorem fragTree_chain_close (n : Nat) :
    findDeepestChainF treeFuel (2 + n) (fragmentTree n) =
      some [.node .other (2 + n) (2 + n) (4 + n) [], fragClosing n, fragNode n,
            fragmentTree n] := by
  have hCl : findDeepestChainF 10 (2 + n) (fragClosing n) =
      some [.node .other (2 + n) (2 + n) (4 + n) [], fragClosing n] := by
    have hTok : findDeepestChainF 9 (2 + n)
        (TsNode.node .other (2 + n) (2 + n) (4 + n) []) =
        some [TsNode.node .other (2 + n) (2 + n) (4 + n) []] :=
      findDeep_leaf 8 _ _ _ _ _ ⟨by omega, by omega⟩
    rw [show (10 : Nat) = 9 + 1 from rfl]
    unfold fragClosing
    rw [findDeep_succ, if_neg (by omega)]
    rw [findSomeCons_some _ _ _ _ hTok]
    rfl
  have hFrag : findDeepestChainF 11 (2 + n) (fragNode n) =
      some [.node .other (2 + n) (2 + n) (4 + n) [], fragClosing n, fragNode n] := by
    have hOp : findDeepestChainF 10 (2 + n) fragOpening = none := by
      unfold fragOpening
      exact findDeep_out _ _ _ _ _ _ _ (by omega)
    have hTx : findDeepestChainF 10 (2 + n) (fragTextNode n) = none := by
      unfold fragTextNode
      exact findDeep_out _ _ _ _ _ _ _ (by omega)
    rw [show (11 : Nat) = 10 + 1 from rfl]
    unfold fragNode
    rw [findDeep_succ, if_neg (by omega)]
    rw [findSomeCons_none _ _ _ hOp, findSomeCons_none _ _ _ hTx,
      findSomeCons_some _ _ _ _ hCl]
    rfl
  rw [show treeFuel = 11 + 1 from rfl]
  unfold fragmentTree
  rw [findDeep_succ, if_neg (by omega)]
  rw [findSomeCons_some _ _ _ _ hFrag]
  rfl

theorem gapNodeHit_fragNode (n o : Nat) :
    gapNodeHit (fragNode n) o = decide (2 ≤ o ∧ o ≤ 2 + n) := rfl

section FragTextFacts

variable (X : List Char)

theorem fragText_length : (fragText X).length = X.length + 5 := by
  simp [fragText]

theorem fragText_charAt_zero : charAt (fragText X) 0 = '<' := rfl

theorem fragText_charAt_one : charAt (fragText X) 1 = '>' := rfl

theorem fragText_charAt_content (k : Nat) (h1 : 2 ≤ k) (h2 : k < 2 + X.length) :
    charAt (fragText X) k = charAt X (k - 2) := by
  rcases Nat.exists_eq_add_of_le h1 with ⟨j, rfl⟩
  rw [fragText, show (2 + j : Nat) = j + 1 + 1 by omega, charAt_cons_succ,
    charAt_cons_succ, charAt_append_left _ _ _ (by omega)]
  congr 1 <;> omega

theorem fragText_charAt_lt2 : charAt (fragText X) (2 + X.length) = '<' := by
  rw [fragText, show 2 + X.length = X.length + 1 + 1 by omega, charAt_cons_succ,
    charAt_cons_succ, charAt_append_right _ _ _ (le_refl _), Nat.sub_self]
  rfl

theorem fragText_charAt_slash : charAt (fragText X) (3 + X.length) = '/' := by
  rw [fragText, show 3 + X.length = X.length + 1 + 1 + 1 by omega, charAt_cons_succ,
    charAt_cons_succ, charAt_append_right _ _ _ (by omega),
    show X.length + 1 - X.length = 1 by omega]
  rfl

theorem fragText_charAt_gt2 : charAt (fragText X) (4 + X.length) = '>' := by
  rw [fragText, show 4 + X.length = X.length + 2 + 1 + 1 by omega, charAt_cons_succ,
    charAt_cons_succ, charAt_append_right _ _ _ (by omega),
    show X.length + 2 - X.length = 2 by omega]
  rfl

theorem fragText_tagAttrs_content (hX : X.all isTextChar = true) (o : Nat)
    (h1 : 2 ≤ o) (h2 : o < 2 + X.length) :
    isInsideTagAttributes (fragText X) o = false := by
  have hlen := fragText_length X
  have hlt : lastIndexOfC (fragText X) '<' (o : Int) = ((0 : Nat) : Int) :=
    lastIndexOfC_nat_eq _ _ o 0 (by omega) (fragText_charAt_zero X) (by omega)
      (fun q hq1 hq2 => by
        by_cases hq : q = 1
        · rw [hq, fragText_charAt_one]
          decide
        · rw [fragText_charAt_content X q (by omega) (by omega)]
          exact ne_of_pred _ _ isTextChar (all_charAt X _ hX _ (by omega)) (by decide))
  have hgt : lastIndexOfC (fragText X) '>' (o : Int) = ((1 : Nat) : Int) :=
    lastIndexOfC_nat_eq _ _ o 1 (by omega) (fragText_charAt_one X) (by omega)
      (fun q hq1 hq2 => by
        rw [fragText_charAt_content X q (by omega) (by omega)]
        exact ne_of_pred _ _ isTextChar (all_charAt X _ hX _ (by omega)) (by decide))
  unfold isInsideTagAttributes
  rw [hlt, hgt]
  rw [if_neg (by decide)]
  rw [if_pos (by simp <;> omega)]

theorem fragText_tagAttrs_close (hX : X.all isTextChar = true) :
    isInsideTagAttributes (fragText X) (2 + X.length) = false := by
  have hlen := fragText_length X
  have hlt : lastIndexOfC (fragText X) '<' ((2 + X.length : Nat) : Int) =
      ((2 + X.length : Nat) : Int) :=
    lastIndexOfC_nat_eq _ _ _ _ (by omega) (fragText_charAt_lt2 X) (le_refl _)
      (fun q hq1 hq2 => by omega)
  have hgt : lastIndexOfC (fragText X) '>' ((2 + X.length : Nat) : Int) =
      ((1 : Nat) : Int) :=
    lastIndexOfC_nat_eq _ _ _ 1 (by omega) (fragText_charAt_one X) (by omega)
      (fun q hq1 hq2 => by
        by_cases hq : q = 2 + X.length
        · rw [hq, fragText_charAt_lt2]
          decide
        · rw [fragText_charAt_content X q (by omega) (by omega)]
          exact ne_of_pred _ _ isTextChar (all_charAt X _ hX _ (by omega)) (by decide))
  have hnext : indexOfC (fragText X) '>' (2 + X.length) =
      ((4 + X.length : Nat) : Int) :=
    indexOfC_eq _ _ _ _ (by omega) (fragText_charAt_gt2 X) (by omega)
      (fun q hq1 hq2 => by
        by_cases ha : q = 2 + X.length
        · rw [ha, fragText_charAt_lt2]
          decide
        · have hb : q = 3 + X.length := by omega
          rw [hb, fragText_charAt_slash]
          decide)
  unfold isInsideTagAttributes
  rw [hlt, hgt, hnext]
  rw [if_neg (by omega)]
  rw [if_neg (by simp; omega)]
  rw [if_neg (by omega)]
  rw [show (((2 + X.length : Nat) : Int)).toNat = 2 + X.length from Int.toNat_natCast _,
    show 2 + X.length + 1 = 3 + X.length by omega, fragText_charAt_slash]
  rw [if_pos (by decide)]

end FragTextFacts

section FragClassify

variable (X : List Char)

theorem fragTree_classify_content (hX : X.all isTextChar = true) (o : Nat)
    (h1 : 2 ≤ o) (h2 : o < 2 + X.length) :
    classifyTreeCore (fragText X) (fragmentTree X.length) o = true := by
  unfold classifyTreeCore
  rw [fragTree_containsJsx]
  simp only [Bool.not_true, Bool.false_eq_true, if_false]
  rw [fragTree_chain_content X.length o h1 h2]
  dsimp only
  have hattr : isInsideJsxAttrChain (fragText X)
      [fragTextNode X.length, fragNode X.length, fragmentTree X.length] o = false := by
    rw [attrChain_skip _ _ _ _ (by simp [fragTextNode, TsNode.kind]),
      attrChain_skip _ _ _ _ (by simp [fragNode, TsNode.kind]),
      attrChain_skip _ _ _ _ (by simp [fragmentTree, TsNode.kind]),
      attrChain_nil]
    exact fragText_tagAttrs_content X hX o h1 h2
  rw [hattr]
  simp only [Bool.false_eq_true, if_false]
  have hexpr : isInsideJsxExprChain
      [fragTextNode X.length, fragNode X.length, fragmentTree X.length] o = false := by
    refine exprChain_no _ _ ?_
    intro n hn
    simp at hn
    rcases hn with rfl | rfl | rfl <;> rfl
  rw [hexpr]
  simp only [Bool.false_eq_true, if_false]
  rw [textChain_found _ _ _ (by rfl)]
  simp

theorem fragTree_classify_close (hX : X.all isTextChar = true) :
    classifyTreeCore (fragText X) (fragmentTree X.length) (2 + X.length) = true := by
  unfold classifyTreeCore
  rw [fragTree_containsJsx]
  simp only [Bool.not_true, Bool.false_eq_true, if_false]
  rw [fragTree_chain_close X.length]
  dsimp only
  have hattr : isInsideJsxAttrChain (fragText X)
      [.node .other (2 + X.length) (2 + X.length) (4 + X.length) [],
       fragClosing X.length, fragNode X.length, fragmentTree X.length]
      (2 + X.length) = false := by
    rw [attrChain_skip _ _ _ _ (by simp [TsNode.kind]),
      attrChain_skip _ _ _ _ (by simp [fragClosing, TsNode.kind]),
      attrChain_skip _ _ _ _ (by simp [fragNode, TsNode.kind]),
      attrChain_skip _ _ _ _ (by simp [fragmentTree, TsNode.kind]),
      attrChain_nil]
    exact fragText_tagAttrs_close X hX
  rw [hattr]
  simp only [Bool.false_eq_true, if_false]
  have hexpr : isInsideJsxExprChain
      [.node .other (2 + X.length) (2 + X.length) (4 + X.length) [],
       fragClosing X.length, fragNode X.length, fragmentTree X.length]
      (2 + X.length) = false := by
    refine exprChain_no _ _ ?_
    intro n hn
    simp at hn
    rcases hn with rfl | rfl | rfl | rfl <;> rfl
  rw [hexpr]
  simp only [Bool.false_eq_true, if_false]
  have htext : isInsideJsxTextChain
      [.node .other (2 + X.length) (2 + X.length) (4 + X.length) [],
       fragClosing X.length, fragNode X.length, fragmentTree X.length]
      (2 + X.length) = false := by
    rw [textChain_skip _ _ _ (by simp [TsNode.kind]) (by simp [TsNode.kind])
        (by simp [TsNode.kind]),
      textChain_skip_span _ _ _ (by simp [fragClosing, TsNode.kind])
        (by simp [fragClosing, TsNode.startPos]),
      textChain_skip _ _ _ (by simp [fragNode, TsNode.kind])
        (by simp [fragNode, TsNode.kind]) (by simp [fragNode, TsNode.kind]),
      textChain_skip _ _ _ (by simp [fragmentTree, TsNode.kind])
        (by simp [fragmentTree, TsNode.kind]) (by simp [fragmentTree, TsNode.kind])]
    rfl
  rw [htext]
  simp only [Bool.false_eq_true, if_false]
  rw [gapChain_skip _ _ _ (gapNodeHit_other _ _ (by simp [TsNode.kind])
      (by simp [TsNode.kind])),
    gapChain_skip _ _ _ (gapNodeHit_other _ _ (by simp [fragClosing, TsNode.kind])
      (by simp [fragClosing, TsNode.kind])),
    gapChain_hit _ _ _ (by rw [gapNodeHit_fragNode]; simp)]

end FragClassify

/-!  ## Heuristic scanner on the modelled buffers  -/

section ElemHeuristic

variable (T C : List Char)

theorem elementText_scan_tag (hT : T ≠ []) (hA : T.all Char.isAlpha = true) :
    ∀ o, 1 ≤ o → o ≤ T.length + 1 →
      scanAcc (elementText T C) o = (tagState, 0) :=
  openPrefix_scan_tag T (C ++ '<' :: '/' :: (T ++ ['>'])) hT hA

theorem elementText_scan_content (hT : T ≠ []) (hA : T.all Char.isAlpha = true)
    (hC : C.all isTextChar = true) :
    ∀ o, T.length + 2 ≤ o → o ≤ T.length + 2 + C.length →
      scanAcc (elementText T C) o = (contentState T.length, 0) := by
  intro o h1 h2
  have hbase : scanAcc (elementText T C) (T.length + 2) = (contentState T.length, 0) :=
    openPrefix_scan_content T (C ++ '<' :: '/' :: (T ++ ['>'])) hT hA
  have hid : ∀ i, T.length + 2 ≤ i → i < o →
      scanPos (elementText T C) (scanAcc (elementText T C) (T.length + 2)) i =
        scanAcc (elementText T C) (T.length + 2) := by
    intro i hi1 hi2
    rw [hbase]
    refine scanPos_of_step_one _ _ _ (jsxStep_inert _ _ _ ?_ rfl rfl)
    rw [elementText_charAt_content T C i hi1 (by omega)]
    exact inertChar_of_textChar _ (all_charAt C _ hC _ (by omega))
  rw [scanAcc_eq_of_id _ (T.length + 2) o h1 hid, hbase]

theorem elementText_heuristic_zero :
    isInJsxTextContent (elementText T C) 0 = false := rfl

theorem elementText_heuristic_tag (hT : T ≠ []) (hA : T.all Char.isAlpha = true)
    (o : Nat) (h1 : 1 ≤ o) (h2 : o ≤ T.length + 1) :
    isInJsxTextContent (elementText T C) o = false := by
  unfold isInJsxTextContent
  rw [elementText_scan_tag T C hT hA o h1 h2]
  rfl

theorem elementText_heuristic_content (hT : T ≠ []) (hA : T.all Char.isAlpha = true)
    (hC : C.all isTextChar = true) (o : Nat) (h1 : T.length + 2 ≤ o)
    (h2 : o ≤ T.length + 2 + C.length) :
    isInJsxTextContent (elementText T C) o = true := by
  unfold isInJsxTextContent
  rw [elementText_scan_content T C hT hA hC o h1 h2]
  rfl

end ElemHeuristic

section ExprHeuristic

variable (T E : List Char)

theorem exprText_def :
    exprText T E =
      '<' :: (T ++ '>' :: ('{' :: (E ++ '}' :: '<' :: '/' :: (T ++ ['>'])))) := rfl

theorem exprText_charAt_lbrace : charAt (exprText T E) (T.length + 2) = '{' := by
  rw [exprText_def, openPrefix_charAt_rest T _ _ (le_refl _), Nat.sub_self]
  rfl

theorem exprText_charAt_expr (k : Nat) (h1 : T.length + 3 ≤ k)
    (h2 : k < T.length + 3 + E.length) :
    charAt (exprText T E) k = charAt E (k - (T.length + 3)) := by
  rw [exprText_def, openPrefix_charAt_rest T _ k (by omega),
    show k - (T.length + 2) = (k - (T.length + 3)) + 1 by omega, charAt_cons_succ,
    charAt_append_left _ _ _ (by omega)]

theorem exprText_scan_lbrace (hT : T ≠ []) (hA : T.all Char.isAlpha = true) :
    scanAcc (exprText T E) (T.length + 3) = (exprState T.length, 0) := by
  rw [show T.length + 3 = (T.length + 2) + 1 from rfl, scanAcc_succ]
  rw [show scanAcc (exprText T E) (T.length + 2) = (contentState T.length, 0) from
    openPrefix_scan_content T ('{' :: (E ++ '}' :: '<' :: '/' :: (T ++ ['>']))) hT hA]
  have hstep : jsxStep (exprText T E) (T.length + 2) (contentState T.length) =
      (exprState T.length, 1) := by
    unfold jsxStep
    dsimp only
    rw [exprText_charAt_lbrace]
    rw [stringStep_none _ _ _ rfl rfl (by decide) (by decide),
      templateStep_none _ _ _ rfl (by decide)]
    rw [show braceTrack '{' (contentState T.length) = exprState T.length from rfl]
    rw [if_pos (show (0 : Int) < (exprState T.length).jsxBraceDepth from Int.zero_lt_one)]
  rw [scanPos, hstep]
  rfl

theorem exprText_scan_expr (hT : T ≠ []) (hA : T.all Char.isAlpha = true)
    (hE : E.all isExprChar = true) :
    ∀ o, T.length + 3 ≤ o → o ≤ T.length + 3 + E.length →
      scanAcc (exprText T E) o = (exprState T.length, 0) := by
  intro o h1 h2
  have hbase := exprText_scan_lbrace T E hT hA
  have hid : ∀ i, T.length + 3 ≤ i → i < o →
      scanPos (exprText T E) (scanAcc (exprText T E) (T.length + 3)) i =
        scanAcc (exprText T E) (T.length + 3) := by
    intro i hi1 hi2
    rw [hbase]
    refine scanPos_of_step_one _ _ _ (jsxStep_expr _ _ _ ?_ rfl rfl Int.zero_lt_one)
    rw [exprText_charAt_expr T E i hi1 (by omega)]
    exact all_charAt E _ hE _ (by omega)
  rw [scanAcc_eq_of_id _ (T.length + 3) o h1 hid, hbase]

theorem exprText_heuristic (hT : T ≠ []) (hA : T.all Char.isAlpha = true)
    (hE : E.all isExprChar = true) (o : Nat) (h1 : T.length + 3 ≤ o)
    (h2 : o ≤ T.length + 3 + E.length) :
    isInJsxTextContent (exprText T E) o = false := by
  unfold isInJsxTextContent
  rw [exprText_scan_expr T E hT hA hE o h1 h2]
  rfl

end ExprHeuristic

section FragHeuristic

variable (X : List Char)

theorem fragText_isLikelyTagStart0 : isLikelyTagStart (fragText X) 0 = true := by
  unfold isLikelyTagStart
  rw [if_neg (by rw [fragText_length]; omega)]
  dsimp only
  rw [fragText_charAt_one]
  rw [if_neg (by decide)]
  rw [if_pos rfl]

theorem fragText_scan_two :
    scanAcc (fragText X) 2 = (contentState 0, 0) := by
  have hstep : jsxStep (fragText X) 0 initScan = (contentState 0, 2) := by
    unfold jsxStep
    dsimp only
    rw [fragText_charAt_zero]
    rw [stringStep_none _ _ _ rfl rfl (by decide) (by decide),
      templateStep_none _ _ _ rfl (by decide),
      braceTrack_id _ _ (by decide) (by decide)]
    rw [if_neg (by decide)]
    unfold tagStep
    rw [fragText_isLikelyTagStart0]
    rw [fragText_charAt_one]
    rw [show (('<' : Char) == '<') = true from rfl]
    simp only [Bool.true_and, if_true]
    rw [show (('>' : Char) == '/') = false from rfl]
    simp only [Bool.false_eq_true, if_false]
    rw [show (('>' : Char) == '>') = true from rfl]
    simp only [if_true]
    rfl
  rw [show (2 : Nat) = 0 + 1 + 1 from rfl, scanAcc_succ, scanAcc_succ, scanAcc_zero]
  have h1 : scanPos (fragText X) (initScan, 0) 0 = (contentState 0, 1) := by
    simp [scanPos, hstep]
  rw [h1]
  rfl

theorem fragText_scan_content (hX : X.all isTextChar = true) :
    ∀ o, 2 ≤ o → o ≤ 2 + X.length →
      scanAcc (fragText X) o = (contentState 0, 0) := by
  intro o h1 h2
  have hid : ∀ i, 2 ≤ i → i < o →
      scanPos (fragText X) (scanAcc (fragText X) 2) i = scanAcc (fragText X) 2 := by
    intro i hi1 hi2
    rw [fragText_scan_two]
    refine scanPos_of_step_one _ _ _ (jsxStep_inert _ _ _ ?_ rfl rfl)
    rw [fragText_charAt_content X i hi1 (by omega)]
    exact inertChar_of_textChar _ (all_charAt X _ hX _ (by omega))
  rw [scanAcc_eq_of_id _ 2 o h1 hid, fragText_scan_two]

theorem fragText_heuristic (hX : X.all isTextChar = true) (o : Nat)
    (h1 : 2 ≤ o) (h2 : o ≤ 2 + X.length) :
    isInJsxTextContent (fragText X) o = true := by
  unfold isInJsxTextContent
  rw [fragText_scan_content X hX o h1 h2]
  rfl

end FragHeuristic

/-!  ## Bridging the detector wrapper to the tree classifier  -/

/-- Helper: on a code-dialect language with an in-range offset, the
wrapper `isJsxTextContext` is exactly the tree classification. -/
theorem isJsxTextContext_jsx (lang : String)
    (hl : JSX_LANGUAGES.contains lang = true) (t : List Char) (tree : TsNode)
    (o : Nat) (ho : o ≤ t.length) :
    isJsxTextContext lang t tree (o : Int) = classifyTreeCore t tree o := by
  unfold isJsxTextContext
  rw [jsx_lang_not_markup lang hl]
  simp only [Bool.false_eq_true, if_false]
  rw [if_neg (by push_cast; omega), int_toNat_len]

/-!  ## Claim C1  -/

/-- C1.  Tag/text duality: on the well-formed buffer `<T>C</T>` (tag
name `T` alphabetic and nonempty, content `C` of letters and spaces so
that no nested tag occurs), both the heuristic classifier
`isInJsxTextContent` and the tree classifier `isJsxTextContext` return
true at every offset strictly inside the content `C` and false at every
offset strictly inside the opening tag region `<T` through `>`. -/
theorem c1_tag_text_duality (lang : String)
    (hl : JSX_LANGUAGES.contains lang = true) (T C : List Char)
    (hT : T ≠ []) (hA : T.all Char.isAlpha = true)
    (hC : C.all isTextChar = true) :
    (∀ o, T.length + 2 ≤ o → o < T.length + 2 + C.length →
      isInJsxTextContent (elementText T C) o = true ∧
      isJsxTextContext lang (elementText T C)
        (elementTree T.length C.length) (o : Int) = true) ∧
    (∀ o, 1 ≤ o → o ≤ T.length + 1 →
      isInJsxTextContent (elementText T C) o = false ∧
      isJsxTextContext lang (elementText T C)
        (elementTree T.length C.length) (o : Int) = false) := by
  have hlen : (elementText T C).length = 2 * T.length + C.length + 5 :=
    elementText_length T C
  constructor
  · intro o h1 h2
    refine ⟨elementText_heuristic_content T C hT hA hC o h1 (by omega), ?_⟩
    rw [isJsxTextContext_jsx lang hl _ _ o (by omega)]
    exact elemTree_classify_content T C hT hA hC o h1 h2
  · intro o h1 h2
    refine ⟨elementText_heuristic_tag T C hT hA o h1 h2, ?_⟩
    rw [isJsxTextContext_jsx lang hl _ _ o (by omega)]
    rcases Nat.lt_or_ge o (T.length + 1) with h3 | h3
    · exact elemTree_classify_name T C o h1 (by omega)
    · have ho : o = T.length + 1 := by omega
      subst ho
      exact elemTree_classify_gt T C

theorem c1_tag_text_duality_witness :
    (isInJsxTextContent (elementText "div".data "ab".data) 5 = true ∧
     isJsxTextContext "typescriptreact" (elementText "div".data "ab".data)
       (elementTree "div".data.length "ab".data.length) ((5 : Nat) : Int) = true) ∧
    (isInJsxTextContent (elementText "div".data "ab".data) 2 = false ∧
     isJsxTextContext "typescriptreact" (elementText "div".data "ab".data)
       (elementTree "div".data.length "ab".data.length) ((2 : Nat) : Int) = false) :=
  ⟨(c1_tag_text_duality "typescriptreact" (by decide) "div".data "ab".data
      (by decide) (by decide) (by decide)).1 5 (by decide) (by decide),
   (c1_tag_text_duality "typescriptreact" (by decide) "div".data "ab".data
      (by decide) (by decide) (by decide)).2 2 (by decide) (by decide)⟩

/-!  ## Claim C2  -/

/-- C2.  Embedded-expression opacity: on `<T>(E)</T>` with braces for
the parentheses (tag name `T` alphabetic nonempty, `E` free of quotes,
backticks and braces), every offset strictly inside the braces
classifies false under both classifiers; and on the concrete nested
input whose expression holds `cond && <span>X</span>`, every offset in
`[6, 28]` — including the inner element's text `X` at offset 20 — still
classifies false under both. -/
theorem c2_embedded_expression_opacity (lang : String)
    (hl : JSX_LANGUAGES.contains lang = true) (T E : List Char)
    (hT : T ≠ []) (hA : T.all Char.isAlpha = true)
    (hE : E.all isExprChar = true) :
    (∀ o, T.length + 3 ≤ o → o ≤ T.length + 3 + E.length →
      isInJsxTextContent (exprText T E) o = false ∧
      isJsxTextContext lang (exprText T E)
        (exprElementTree T.length E.length) (o : Int) = false) ∧
    (∀ o, 6 ≤ o → o ≤ 28 →
      isInJsxTextContent nestedText o = false ∧
      isJsxTextContext lang nestedText nestedExprTree (o : Int) = false) := by
  constructor
  · intro o h1 h2
    refine ⟨exprText_heuristic T E hT hA hE o h1 h2, ?_⟩
    have hlen : (exprText T E).length = 2 * T.length + E.length + 7 := by
      simp [exprText]
      omega
    rw [isJsxTextContext_jsx lang hl _ _ o (by omega)]
    exact exprTree_classify T.length E.length _ o h1 h2
  · intro o h1 h2
    have hb := isJsxTextContext_jsx lang hl nestedText nestedExprTree o
    interval_cases o <;>
      exact ⟨by decide, by rw [hb (by decide)]; decide⟩

theorem c2_embedded_expression_opacity_witness :
    (isInJsxTextContent (exprText "div".data "x + 1".data) 8 = false ∧
     isJsxTextContext "typescriptreact" (exprText "div".data "x + 1".data)
       (exprElementTree "div".data.length "x + 1".data.length)
       ((8 : Nat) : Int) = false) ∧
    (isInJsxTextContent nestedText 20 = false ∧
     isJsxTextContext "typescriptreact" nestedText nestedExprTree
       ((20 : Nat) : Int) = false) :=
  ⟨(c2_embedded_expression_opacity "typescriptreact" (by decide) "div".data
      "x + 1".data (by decide) (by decide) (by decide)).1 8 (by decide) (by decide),
   (c2_embedded_expression_opacity "typescriptreact" (by decide) "div".data
      "x + 1".data (by decide) (by decide) (by decide)).2 20 (by decide) (by decide)⟩

/-!  ## Claim C9  -/

/-- C9.  Fragment parity: the fragment buffer `<>X</>` and the element
buffer `<div>X</div>` receive identical verdicts at corresponding
offsets inside the text `X` (offset `2 + k` in the fragment matches
offset `5 + k` in the element), under both the heuristic scanner and
the tree classifier — and that common verdict is true. -/
theorem c9_fragment_parity (lang : String)
    (hl : JSX_LANGUAGES.contains lang = true) (X : List Char)
    (hX : X.all isTextChar = true) :
    ∀ k, k < X.length →
      (isInJsxTextContent (fragText X) (2 + k) =
        isInJsxTextContent (elementText "div".data X) (5 + k)) ∧
      (isJsxTextContext lang (fragText X) (fragmentTree X.length)
          ((2 + k : Nat) : Int) =
        isJsxTextContext lang (elementText "div".data X)
          (elementTree "div".data.length X.length) ((5 + k : Nat) : Int)) ∧
      isInJsxTextContent (fragText X) (2 + k) = true ∧
      isJsxTextContext lang (fragText X) (fragmentTree X.length)
        ((2 + k : Nat) : Int) = true := by
  intro k hk
  have hd : ("div".data).length = 3 := rfl
  have hfh : isInJsxTextContent (fragText X) (2 + k) = true :=
    fragText_heuristic X hX (2 + k) (by omega) (by omega)
  have heh : isInJsxTextContent (elementText "div".data X) (5 + k) = true :=
    elementText_heuristic_content "div".data X (by decide) (by decide) hX (5 + k)
      (by omega) (by omega)
  have hft : isJsxTextContext lang (fragText X) (fragmentTree X.length)
      ((2 + k : Nat) : Int) = true := by
    rw [isJsxTextContext_jsx lang hl _ _ _ (by rw [fragText_length]; omega)]
    exact fragTree_classify_content X hX (2 + k) (by omega) (by omega)
  have het : isJsxTextContext lang (elementText "div".data X)
      (elementTree "div".data.length X.length) ((5 + k : Nat) : Int) = true := by
    rw [isJsxTextContext_jsx lang hl _ _ _
      (by rw [elementText_length, hd]; omega)]
    have := elemTree_classify_content "div".data X (by decide) (by decide) hX
      (5 + k) (by omega) (by omega)
    rw [hd] at this ⊢
    exact this
  exact ⟨by rw [hfh, heh], by rw [hft, het], hfh, hft⟩

theorem c9_fragment_parity_witness :
    (isInJsxTextContent (fragText "hi".data) 2 =
      isInJsxTextContent (elementText "div".data "hi".data) 5) ∧
    (isJsxTextContext "typescriptreact" (fragText "hi".data)
        (fragmentTree "hi".data.length) ((2 : Nat) : Int) =
      isJsxTextContext "typescriptreact" (elementText "div".data "hi".data)
        (elementTree "div".data.length "hi".data.length) ((5 : Nat) : Int)) ∧
    isInJsxTextContent (fragText "hi".data) 2 = true ∧
    isJsxTextContext "typescriptreact" (fragText "hi".data)
      (fragmentTree "hi".data.length) ((2 : Nat) : Int) = true :=
  c9_fragment_parity "typescriptreact" (by decide) "hi".data (by decide)
    0 (by decide)

/-!  ## Claim C4  -/

/-- C4 counterexample.  On the well-formed buffer `<a>b</a>` at offset
6 (inside the closing tag's name), the heuristic scanner answers true —
its closing-tag bookkeeping only fires once the closing `>` is scanned —
while the tree classifier answers false, so the two disagree on a
well-formed input. -/
theorem c4_heuristic_tree_disagreement_cex :
    isInJsxTextContent (elementText "a".data "b".data) 6 = true ∧
    isJsxTextContext "typescriptreact" (elementText "a".data "b".data)
      (elementTree 1 1) ((6 : Nat) : Int) = false := by
  constructor <;> decide

/-- C4 (amended).  Heuristic/tree agreement holds on `<T>C</T>` for
every offset from the start of the buffer through the end of the
content (the closing tag's interior excluded): both classifiers answer
false inside the opening tag and true inside the content; offsets
strictly inside the closing tag `</T>` can disagree. -/
theorem c4_heuristic_tree_agreement_amended (lang : String)
    (hl : JSX_LANGUAGES.contains lang = true) (T C : List Char)
    (hT : T ≠ []) (hA : T.all Char.isAlpha = true)
    (hC : C.all isTextChar = true) :
    ∀ o, o ≤ T.length + 2 + C.length →
      isInJsxTextContent (elementText T C) o =
        isJsxTextContext lang (elementText T C)
          (elementTree T.length C.length) (o : Int) := by
  intro o ho
  have hlen : (elementText T C).length = 2 * T.length + C.length + 5 :=
    elementText_length T C
  rw [isJsxTextContext_jsx lang hl _ _ o (by omega)]
  rcases Nat.eq_zero_or_pos o with rfl | hpos
  · rw [elementText_heuristic_zero, elemTree_classify_zero T C hT hA]
  · rcases le_or_lt o (T.length + 1) with h1 | h1
    · rw [elementText_heuristic_tag T C hT hA o hpos h1]
      rcases Nat.lt_or_ge o (T.length + 1) with h2 | h2
      · rw [elemTree_classify_name T C o hpos (by omega)]
      · have ho2 : o = T.length + 1 := by omega
        subst ho2
        rw [elemTree_classify_gt T C]
    · rcases Nat.lt_or_ge o (T.length + 2 + C.length) with h2 | h2
      · rw [elementText_heuristic_content T C hT hA hC o (by omega) (by omega),
          elemTree_classify_content T C hT hA hC o (by omega) h2]
      · have ho2 : o = T.length + 2 + C.length := by omega
        subst ho2
        rw [elementText_heuristic_content T C hT hA hC _ (by omega) (le_refl _),
          elemTree_classify_ce T C hT hA hC]

theorem c4_heuristic_tree_agreement_amended_witness :
    isInJsxTextContent (elementText "a".data "b".data) 3 =
      isJsxTextContext "typescriptreact" (elementText "a".data "b".data)
        (elementTree "a".data.length "b".data.length) ((3 : Nat) : Int) :=
  c4_heuristic_tree_agreement_amended "typescriptreact" (by decide)
    "a".data "b".data (by decide) (by decide) (by decide) 3 (by decide)

/-!  ## Claim C5: search characterizations over range lists  -/

theorem filter_range_getLast_none (f : Nat → Bool) (n : Nat)
    (h : ((List.range n).filter f).getLast? = none) :
    ∀ q, q < n → f q = false := by
  induction n with
  | zero => intro q hq; omega
  | succ m ih =>
    rw [List.range_succ, List.filter_append] at h
    cases hf : f m with
    | true =>
      rw [show List.filter f [m] = [m] by simp [hf], List.getLast?_concat] at h
      exact absurd h (by simp)
    | false =>
      rw [show List.filter f [m] = [] by simp [hf], List.append_nil] at h
      intro q hq
      rcases Nat.lt_or_ge q m with h1 | h1
      · exact ih h q h1
      · have hq : q = m := by omega
        subst hq
        exact hf

theorem filter_range_getLast_some (f : Nat → Bool) (n g : Nat)
    (h : ((List.range n).filter f).getLast? = some g) :
    g < n ∧ f g = true ∧ ∀ q, g < q → q < n → f q = false := by
  induction n with
  | zero => simp at h
  | succ m ih =>
    rw [List.range_succ, List.filter_append] at h
    cases hf : f m with
    | true =>
      rw [show List.filter f [m] = [m] by simp [hf], List.getLast?_concat] at h
      have hg : m = g := by injection h
      subst hg
      exact ⟨by omega, hf, fun q h1 h2 => by omega⟩
    | false =>
      rw [show List.filter f [m] = [] by simp [hf], List.append_nil] at h
      obtain ⟨h1, h2, h3⟩ := ih h
      refine ⟨by omega, h2, fun q hq1 hq2 => ?_⟩
      rcases Nat.lt_or_ge q m with hc | hc
      · exact h3 q hq1 hc
      · have hq : q = m := by omega
        subst hq
        exact hf

theorem find_range_some (f : Nat → Bool) (n p : Nat) :
    ∀ s, (List.range' s n).find? f = some p →
      s ≤ p ∧ p < s + n ∧ f p = true ∧ ∀ q, s ≤ q → q < p → f q = false := by
  induction n with
  | zero => intro s h; simp [List.range'] at h
  | succ m ih =>
    intro s h
    rw [List.range'_succ] at h
    cases hf : f s with
    | true =>
      rw [List.find?_cons_of_pos _ hf] at h
      have hp : s = p := by injection h
      subst hp
      exact ⟨le_refl _, by omega, hf, fun q h1 h2 => by omega⟩
    | false =>
      rw [List.find?_cons_of_neg _ (by simp [hf])] at h
      obtain ⟨h1, h2, h3, h4⟩ := ih (s + 1) h
      refine ⟨by omega, by omega, h3, fun q hq1 hq2 => ?_⟩
      rcases Nat.eq_or_lt_of_le hq1 with hq | hq
      · subst hq; exact hf
      · exact h4 q (by omega) hq2

theorem find_range_none (f : Nat → Bool) (s n : Nat)
    (h : (List.range' s n).find? f = none) :
    ∀ q, s ≤ q → q < s + n → f q = false := by
  intro q h1 h2
  have hm : q ∈ List.range' s n := by
    rw [List.mem_range'_1]
    omega
  have := List.find?_eq_none.mp h q hm
  simpa using this

theorem charAt_ge_len (t : List Char) (q : Nat) (h : t.length ≤ q) :
    charAt t q = nul :=
  List.getD_eq_default t nul h

theorem sliceEq_endPat_ge_len (t : List Char) (q : Nat) (h : t.length ≤ q) :
    sliceEq t q endPat = false := by
  have h0 : charAt t (q + 0) = nul := charAt_ge_len t (q + 0) (by omega)
  unfold sliceEq
  rw [show List.range endPat.length = [0, 1, 2] from rfl]
  simp only [List.all_cons, h0]
  rfl

theorem lastIndexOfSeq_eq (t pat : List Char) (o p : Nat) (ho : o ≤ t.length)
    (hp : sliceEq t p pat = true) (hple : p ≤ o)
    (hmax : ∀ q, p < q → q ≤ o → sliceEq t q pat = false) :
    lastIndexOfSeq t pat o = (p : Int) := by
  unfold lastIndexOfSeq
  rw [Nat.min_eq_left ho]
  exact lastHitAux_spec_some _ o p hple hp hmax

theorem lastIndexOfSeq_neg (t pat : List Char) (o : Nat) (ho : o ≤ t.length)
    (h : ∀ q, q ≤ o → sliceEq t q pat = false) :
    lastIndexOfSeq t pat o = -1 := by
  unfold lastIndexOfSeq
  rw [Nat.min_eq_left ho]
  exact lastHitAux_spec_none _ o h

theorem indexOfSeq_eq (t pat : List Char) (s e : Nat) (hse : s ≤ e)
    (helen : e < s + t.length + 1) (he : sliceEq t e pat = true)
    (hmin : ∀ q, s ≤ q → q < e → sliceEq t q pat = false) :
    indexOfSeq t pat s = (e : Int) := by
  unfold indexOfSeq
  rw [firstHit_spec_some _ (t.length + 1) s e hse (by omega) he hmin]

theorem indexOfSeq_endPat_none (t : List Char) (s : Nat)
    (h : ∀ q, s ≤ q → q < t.length → sliceEq t q endPat = false) :
    indexOfSeq t endPat s = -1 := by
  unfold indexOfSeq
  rw [firstHit_spec_none _ (t.length + 1) s (fun q h1 h2 => ?_)]
  rcases Nat.lt_or_ge q t.length with hc | hc
  · exact h q h1 hc
  · exact sliceEq_endPat_ge_len t q hc

theorem indexOfC_none (t : List Char) (c : Char) (s : Nat)
    (h : ∀ q, s ≤ q → q < t.length → charAt t q ≠ c) :
    indexOfC t c s = -1 := by
  unfold indexOfC
  rw [firstHit_spec_none _ (t.length + 1) s (fun q h1 h2 => ?_)]
  rcases Nat.lt_or_ge q t.length with hc | hc
  · simp [hc, h q h1 hc]
  · simp [Nat.not_lt.mpr hc]

theorem lastHitAux_cases (f : Nat → Bool) (k : Nat) :
    lastHitAux f k = -1 ∨ 0 ≤ lastHitAux f k := by
  induction k with
  | zero =>
    by_cases h : f 0 = true <;> simp [lastHitAux, h]
  | succ n ih =>
    by_cases h : f (n + 1) = true
    · right
      unfold lastHitAux
      rw [if_pos h]
      exact Int.natCast_nonneg _
    · simpa [lastHitAux, h] using ih

/-!  ## Claim C5: the code's clauses against the spec's clauses  -/

/-- The comment clause of the code equals the amended spec clause. -/
theorem markupCommentBad_eq_spec (t : List Char) (o g : Nat) (ho : o ≤ t.length) :
    markupCommentBad t (o : Int) (g : Int) = specUnclosedCommentAfter t o g := by
  unfold markupCommentBad specUnclosedCommentAfter
  rw [Int.toNat_natCast]
  rcases hCP : ((List.range (o + 1)).filter fun p => sliceEq t p comPat).getLast?
      with _ | p
  · have hno : ∀ q, q ≤ o → sliceEq t q comPat = false := fun q hq =>
      filter_range_getLast_none _ (o + 1) hCP q (by omega)
    rw [lastIndexOfSeq_neg t comPat o ho hno]
    rfl
  · obtain ⟨hp1, hp2, hp3⟩ := filter_range_getLast_some _ (o + 1) p hCP
    have hCS : lastIndexOfSeq t comPat o = (p : Int) :=
      lastIndexOfSeq_eq t comPat o p ho hp2 (by omega)
        (fun q h1 h2 => hp3 q h1 (by omega))
    rw [hCS]
    dsimp only
    by_cases hgp : g < p
    · have hcond : (((p : Int) != -1) && decide ((g : Int) < (p : Int))) = true := by
        rw [Bool.and_eq_true]
        refine ⟨?_, ?_⟩
        · simp only [bne_iff_ne, ne_eq]
          omega
        · simp only [decide_eq_true_eq]
          omega
      rw [if_pos hcond, Int.toNat_natCast]
      rw [show (decide (g < p)) = true by simpa using hgp, Bool.true_and]
      rcases hF : (List.range' p (t.length - p)).find? (fun e => sliceEq t e endPat)
          with _ | e
      · have hno : ∀ q, p ≤ q → q < t.length → sliceEq t q endPat = false :=
          fun q h1 h2 => find_range_none _ p (t.length - p) hF q h1 (by omega)
        rw [indexOfSeq_endPat_none t p hno]
        rfl
      · obtain ⟨he1, he2, he3, he4⟩ := find_range_some _ (t.length - p) e p hF
        rw [indexOfSeq_eq t endPat p e he1 (by omega) he3 he4]
        dsimp only
        rw [show ((e : Int) == -1) = false by
          simp only [beq_eq_false_iff_ne, ne_eq]
          omega]
        rw [Bool.false_or]
        rw [show (decide ((o : Int) ≤ (e : Int))) = decide (o ≤ e) from
          decide_eq_decide.mpr (by omega)]
    · have h2 : (decide ((g : Int) < (p : Int))) = false := by
        simp only [decide_eq_false_iff_not]
        omega
      rw [h2, Bool.and_false]
      rw [if_neg (by simp)]
      rw [show (decide (g < p)) = false by simpa using hgp, Bool.false_and]

/-- The next-open-tag bound of the code equals the spec's `nextOpen`. -/
theorem markupNext_eq_spec (t : List Char) (o : Nat) :
    (if indexOfC t '<' o = -1 then (t.length : Int) else indexOfC t '<' o) =
      (((match (List.range' o (t.length - o)).find? (fun i => charAt t i == '<') with
        | some p => p
        | none => t.length) : Nat) : Int) := by
  rcases hF : (List.range' o (t.length - o)).find? (fun i => charAt t i == '<')
      with _ | p
  · have hno : ∀ q, o ≤ q → q < t.length → charAt t q ≠ '<' := by
      intro q h1 h2
      have := find_range_none _ o (t.length - o) hF q h1 (by omega)
      simpa using this
    rw [indexOfC_none t '<' o hno, if_pos rfl]
  · obtain ⟨h1, h2, h3, h4⟩ := find_range_some _ (t.length - o) p o hF
    have hc : charAt t p = '<' := by simpa using h3
    rw [indexOfC_eq t '<' o p h1 hc (by omega)
      (fun q hq1 hq2 => by simpa using h4 q hq1 hq2)]
    rw [if_neg (by omega)]

/-- At offset 0 the markup scanner always answers false: the final
clause requires a tag close strictly before the offset. -/
theorem markup_zero (t : List Char) : isMarkupTextContext t 0 = false := by
  unfold isMarkupTextContext
  rw [if_neg (by omega)]
  dsimp only
  split
  · rfl
  · split
    · rfl
    · split
      · rfl
      · next hne _ =>
        have hcases : lastIndexOfC t '>' (0 - 1) = -1 ∨
            0 ≤ lastIndexOfC t '>' (0 - 1) := by
          unfold lastIndexOfC
          split
          · left
            rfl
          · exact lastHitAux_cases _ _
        rcases hcases with hc | hc
        · exact absurd hc hne
        · refine decide_eq_false ?_
          rintro ⟨ha, -⟩
          omega

/-- The markup scanner agrees with the spec-side verdict at every
positive in-range offset. -/
theorem markup_code_eq_spec_pos (t : List Char) (o : Nat) (ho1 : 1 ≤ o)
    (ho : o ≤ t.length) :
    isMarkupTextContext t (o : Int) = markupSpecVerdict t o := by
  have hlen1 : 1 ≤ t.length := le_trans ho1 ho
  unfold isMarkupTextContext markupSpecVerdict
  rw [if_neg (by push_cast; omega)]
  dsimp only
  rw [Int.toNat_natCast]
  rcases hG : ((List.range o).filter fun i => charAt t i == '>').getLast? with _ | g
  · have hnog : ∀ q, q < o → charAt t q ≠ '>' := by
      intro q hq
      have := filter_range_getLast_none _ o hG q hq
      simpa using this
    have hGt : lastIndexOfC t '>' ((o : Int) - 1) = -1 := by
      rw [show ((o : Int) - 1) = (((o - 1 : Nat) : Nat) : Int) by omega]
      exact lastIndexOfC_nat_neg t '>' (o - 1) (by omega)
        (fun q hq => hnog q (by omega))
    rw [hGt]
    split
    · rfl
    · rw [if_pos rfl]
  · obtain ⟨hgo, hgc, hgmax⟩ := filter_range_getLast_some _ o g hG
    have hgc' : charAt t g = '>' := by simpa using hgc
    have hGt : lastIndexOfC t '>' ((o : Int) - 1) = (g : Int) := by
      rw [show ((o : Int) - 1) = (((o - 1 : Nat) : Nat) : Int) by omega]
      exact lastIndexOfC_nat_eq t '>' (o - 1) g (by omega) hgc' (by omega)
        (fun q h1 h2 => by simpa using hgmax q h1 (by omega))
    rw [hGt]
    rcases hL : ((List.range o).filter fun i => charAt t i == '<').getLast? with _ | l
    · have hnol : ∀ q, q < o → charAt t q ≠ '<' := by
        intro q hq
        have := filter_range_getLast_none _ o hL q hq
        simpa using this
      have hLt : lastIndexOfC t '<' ((o : Int) - 1) = -1 := by
        rw [show ((o : Int) - 1) = (((o - 1 : Nat) : Nat) : Int) by omega]
        exact lastIndexOfC_nat_neg t '<' (o - 1) (by omega)
          (fun q hq => hnol q (by omega))
      rw [hLt]
      dsimp only
      rw [if_neg (show ¬((g : Int) < -1) by omega)]
      rw [if_neg (show ¬((g : Int) = -1) by omega)]
      rw [if_neg (show ¬((false : Bool) = true) by simp)]
      rw [markupCommentBad_eq_spec t o g ho]
      by_cases hB : specUnclosedCommentAfter t o g = true
      · rw [if_pos hB, if_pos hB]
      · rw [if_neg hB, if_neg hB]
        rw [markupNext_eq_spec t o]
        exact decide_eq_decide.mpr (by omega)
    · obtain ⟨hlo, hlc, hlmax⟩ := filter_range_getLast_some _ o l hL
      have hlc' : charAt t l = '<' := by simpa using hlc
      have hLt : lastIndexOfC t '<' ((o : Int) - 1) = (l : Int) := by
        rw [show ((o : Int) - 1) = (((o - 1 : Nat) : Nat) : Int) by omega]
        exact lastIndexOfC_nat_eq t '<' (o - 1) l (by omega) hlc' (by omega)
          (fun q h1 h2 => by simpa using hlmax q h1 (by omega))
      rw [hLt]
      dsimp only
      by_cases hgl : g < l
      · rw [if_pos (show (g : Int) < (l : Int) by omega)]
        rw [if_pos (show (decide (g < l)) = true by simpa using hgl)]
      · rw [if_neg (show ¬((g : Int) < (l : Int)) by omega)]
        rw [if_neg (show ¬((decide (g < l)) = true) by simpa using hgl)]
        rw [if_neg (show ¬((g : Int) = -1) by omega)]
        rw [markupCommentBad_eq_spec t o g ho]
        by_cases hB : specUnclosedCommentAfter t o g = true
        · rw [if_pos hB, if_pos hB]
        · rw [if_neg hB, if_neg hB]
          rw [markupNext_eq_spec t o]
          exact decide_eq_decide.mpr (by omega)

/-- C5 counterexample.  On the buffer `a> <!-- x > y` at offset 12 the
offset lies inside an unclosed HTML comment (`<!--` at index 3 with no
`-->` anywhere), so the claimed algorithm demands false; but the code
only applies its comment clause when the comment opener lies after the
last `>` before the offset — here the `>` at index 10 sits inside the
comment itself — so `isMarkupTextContext` answers true. -/
theorem c5_markup_comment_clause_cex :
    insideUnclosedComment "a> <!-- x > y".data 12 = true ∧
    isMarkupTextContext "a> <!-- x > y".data ((12 : Nat) : Int) = true := by
  constructor <;> decide

/-- C5 (amended).  At every in-range offset the markup scanner equals
the spec-side reference verdict `markupSpecVerdict`: false when no `>`
precedes the offset or the last `<` before it is later than the last
`>`, false when the last `<!--` at or before the offset starts after
the last `>` and is not terminated by a `-->` strictly before the
offset (the comment clause holds only in this gated form, not for every
unclosed comment), and otherwise `lastClose < offset ∧ offset ≤
nextOpen` with `nextOpen` the first `<` at or after the offset or the
end of text; offset 0 (and hence empty text) yields false by the same
equation. -/
theorem c5_markup_scanner_amended (t : List Char) (o : Nat) (ho : o ≤ t.length) :
    isMarkupTextContext t (o : Int) = markupSpecVerdict t o := by
  rcases Nat.eq_zero_or_pos o with rfl | hpos
  · rw [Nat.cast_zero, markup_zero]
    rfl
  · exact markup_code_eq_spec_pos t o hpos ho

theorem c5_markup_scanner_amended_witness :
    isMarkupTextContext "<b> x".data ((4 : Nat) : Int) =
      markupSpecVerdict "<b> x".data 4 :=
  c5_markup_scanner_amended "<b> x".data 4 (by decide)
